import Mathlib

/-!
Verification of the njt-bus-map route-selection / rendering core.

Shallow embedding of the TypeScript sources:
  * `src/lib/liveVehicleLayerManager.ts` (bearing interpolation, vehicle sync)
  * `src/lib/routeSelectionManager.ts`  (preview arbitration, clustering,
    selection consistency, single-flight loads, failure handling)
  * `src/lib/attachInteractivePopup.ts` (token-guarded popup content)
  * the schedule time helpers (`parseGtfsSeconds`, `formatGtfsTime`)

JavaScript numbers are modelled by `ℚ` (respectively `Nat`/`Int` where the
code only produces integers; all quantities involved are exact, no overflow
or NaN arises on the inputs considered); JS `Map`s are modelled by
insertion-ordered association lists with JS `Map` semantics (set replaces
in place, delete removes, iteration in insertion order; keys are unique).

The file is organised as: all definitions first, then all theorems.
-/

/-! # Definitions -/

/-! ## JS `Map` as an association list -/

namespace JsMap

variable {κ α : Type} [DecidableEq κ]

/-- `Map.get`: value of the first entry with the given key. -/
def get : List (κ × α) → κ → Option α
  | [], _ => none
  | (k', v) :: t, k => if k' = k then some v else get t k

/-- `Map.has`. -/
def contains (m : List (κ × α)) (k : κ) : Bool :=
  (get m k).isSome

/-- `Map.set`: replace the value in place if the key is present
(keys of a JS `Map` are unique), otherwise append. -/
def set : List (κ × α) → κ → α → List (κ × α)
  | [], k, v => [(k, v)]
  | (k', v') :: t, k, v =>
    if k' = k then (k, v) :: t else (k', v') :: set t k v

/-- `Map.delete`. -/
def del (m : List (κ × α)) (k : κ) : List (κ × α) :=
  m.filter (fun p => decide (p.1 ≠ k))

end JsMap

/-! ## Bearing interpolation (`src/lib/liveVehicleLayerManager.ts`) -/

/-- Truncation toward zero, the rounding used by the JS `%` operator. -/
def jsTrunc (q : ℚ) : ℤ :=
  if 0 ≤ q then ⌊q⌋ else ⌈q⌉

/-- The JS remainder operator `a % b`: `a - b * trunc(a / b)`. -/
def jsMod (a b : ℚ) : ℚ :=
  a - b * (jsTrunc (a / b) : ℚ)

/-- `normalizeBearing` from `liveVehicleLayerManager.ts`; the
`Number.isFinite` guard always passes on rational inputs. -/
def normalizeBearing : Option ℚ → Option ℚ
  | none => none
  | some value => some (jsMod (jsMod value 360 + 360) 360)

/-- The bearing-delta expression inside `interpolateBearing`:
`((((endBearing - startBearing) % 360) + 540) % 360) - 180`. -/
def bearingDelta (startBearing endBearing : ℚ) : ℚ :=
  jsMod (jsMod (endBearing - startBearing) 360 + 540) 360 - 180

/-- `interpolateBearing` from `liveVehicleLayerManager.ts`. -/
def interpolateBearing (startBearing endBearing : Option ℚ) (progress : ℚ) :
    Option ℚ :=
  match startBearing, endBearing with
  | none, none => none
  | none, some e => if progress < 1 then none else some e
  | some s, none => if progress < 1 then some s else none
  | some s, some e =>
      normalizeBearing (some (s + bearingDelta s e * progress))

/-! ## GTFS time formatting (schedule time helpers) -/

/-- Split a character list on a separator character, JS `String.split`
restricted to the single-character separators used by the source. -/
def splitOnChar (sep : Char) : List Char → List (List Char)
  | [] => [[]]
  | c :: rest =>
    let r := splitOnChar sep rest
    if c = sep then [] :: r
    else
      match r with
      | [] => [[c]]
      | h :: t => (c :: h) :: t

/-- `Number.parseInt(segment, 10)` for the digit-only segments of a GTFS
time: the maximal leading digit run, `none` standing for `NaN` when the
segment does not start with a digit. -/
def parseIntJs (cs : List Char) : Option Nat :=
  let ds := cs.takeWhile Char.isDigit
  if ds.isEmpty then none
  else some (ds.foldl (fun acc c => acc * 10 + (c.toNat - 48)) 0)

/-- `parseGtfsSeconds` (GTFS time helpers); `none` stands for `NaN`. -/
def parseGtfsSeconds (rawTime : String) : Option Nat :=
  let parts := (splitOnChar ':' rawTime.data).map parseIntJs
  if parts.length < 3 then none
  else
    match parts with
    | some h :: some m :: some s :: _ => some (h * 3600 + m * 60 + s)
    | _ => none

/-- `String(n).padStart(2, "0")`. -/
def padTwo (n : Nat) : String :=
  let s := toString n
  if s.length < 2 then "0" ++ s else s

/-- `formatGtfsTime` (GTFS time helpers). -/
def formatGtfsTime (rawTime : String) : String :=
  match parseGtfsSeconds rawTime with
  | none => rawTime
  | some totalSeconds =>
    let overflowDays := totalSeconds / 86400
    let secondOfDay := totalSeconds % 86400
    let hours24 := secondOfDay / 3600
    let minutes := (secondOfDay % 3600) / 60
    let period := if 12 ≤ hours24 then "PM" else "AM"
    let hours12 := if hours24 % 12 = 0 then 12 else hours24 % 12
    let base :=
      toString hours12 ++ ":" ++ padTwo minutes ++ " " ++ period
    if 0 < overflowDays then
      base ++ " (+" ++ toString overflowDays ++ ")"
    else
      base

/-! ## Hover preview arbitration (`src/lib/routeSelectionManager.ts`)

The mutable bookkeeping captured by the closure of
`createRouteSelectionManager`: `previewHoverCountsByRouteKey`,
`previewActivationOrderByRouteKey`, `previewDirectionByRouteKey`,
`activePreviewRouteKey` and `previewActivationSequence`.  The
`routeStateByKey` lookups `state?.selected` and `state?.layer` are
modelled by the fixed Boolean functions `selected` and `hasLayer`
(these operations do not modify route states). -/

structure PreviewState where
  hoverCounts : List (String × Nat)
  activationOrder : List (String × Nat)
  previewDirection : List (String × String)
  activeKey : Option String
  seq : Nat

/-- `previewHoverCountsByRouteKey.get(routeKey) ?? 0`. -/
def hoverCount (s : PreviewState) (k : String) : Nat :=
  (JsMap.get s.hoverCounts k).getD 0

/-- `previewActivationOrderByRouteKey.get(routeKey) ?? -1`. -/
def activationOf (s : PreviewState) (k : String) : Int :=
  (JsMap.get s.activationOrder k).elim (-1) (fun n => (n : Int))

/-- One iteration of the loop in `pickNextPreviewRouteKey`
(accumulator = `(nextRouteKey, bestActivation)`). -/
def pickStep (selected : String → Bool) (s : PreviewState)
    (acc : Option String × Int) (p : String × Nat) : Option String × Int :=
  if p.2 ≤ 0 then acc
  else if ¬ selected p.1 then acc
  else if activationOf s p.1 > acc.2 then (some p.1, activationOf s p.1)
  else acc

/-- `pickNextPreviewRouteKey`. -/
def pickNextPreviewRouteKey (selected : String → Bool) (s : PreviewState) :
    Option String :=
  (s.hoverCounts.foldl (pickStep selected s) (none, -1)).1

/-- `applyActivePreviewRoute` (the layer re-sync it triggers is rendering
side-effect only; the early return on an unchanged key yields the same
state). -/
def applyActivePreviewRoute (s : PreviewState) (k : Option String) :
    PreviewState :=
  { s with activeKey := k }

/-- `startStationHoverPreview`. -/
def startStationHoverPreview (selected : String → Bool) (s : PreviewState)
    (routeKey : String) (initialDirectionKey : Option String) :
    PreviewState :=
  if ¬ selected routeKey then s
  else
    let counts := JsMap.set s.hoverCounts routeKey (hoverCount s routeKey + 1)
    let seq' := s.seq + 1
    let order := JsMap.set s.activationOrder routeKey seq'
    let dirs :=
      match initialDirectionKey with
      | some d => JsMap.set s.previewDirection routeKey d
      | none => JsMap.del s.previewDirection routeKey
    applyActivePreviewRoute
      { hoverCounts := counts, activationOrder := order,
        previewDirection := dirs, activeKey := s.activeKey, seq := seq' }
      (some routeKey)

/-- `endStationHoverPreview`. -/
def endStationHoverPreview (selected : String → Bool) (s : PreviewState)
    (routeKey : String) : PreviewState :=
  let hc := hoverCount s routeKey
  let s1 :=
    if hc ≤ 1 then
      { s with hoverCounts := JsMap.del s.hoverCounts routeKey,
               activationOrder := JsMap.del s.activationOrder routeKey,
               previewDirection := JsMap.del s.previewDirection routeKey }
    else
      { s with hoverCounts := JsMap.set s.hoverCounts routeKey (hc - 1) }
  if s1.activeKey ≠ some routeKey then s1
  else if 0 < hoverCount s1 routeKey then s1
  else applyActivePreviewRoute s1 (pickNextPreviewRouteKey selected s1)

/-- `shouldShowSelectedRoute`. -/
def shouldShowSelectedRoute (selected hasLayer : String → Bool)
    (s : PreviewState) (routeKey : String) : Bool :=
  if !(selected routeKey) || !(hasLayer routeKey) then false
  else
    match s.activeKey with
    | none => true
    | some a => decide (routeKey = a)

/-! ## Selection-set consistency (`setRouteSelectionInternal`)

`setRouteSelection` / `setRouteKeysSelected` run on a single-threaded event
loop: the only suspension point touching selection state is the `await` on
the geometry load inside the select branch.  Each constructor below is one
of the atomic synchronous blocks delimited by those suspension points, for
some in-flight call; an arbitrary interleaving of any number of concurrent
calls is an arbitrary list of these steps.  `knownKeys` models membership
in `routeStateByKey`. -/

structure SelectionState where
  selectedFlag : String → Bool
  selectedKeys : List String

/-- JS `Set.add`. -/
def setAdd (l : List String) (k : String) : List String :=
  if k ∈ l then l else l ++ [k]

/-- JS `Set.delete`. -/
def setRemove (l : List String) (k : String) : List String :=
  l.filter (fun x => decide (x ≠ k))

/-- Pointwise update of one route's `selected` flag. -/
def flagUpdate (f : String → Bool) (k : String) (b : Bool) :
    String → Bool :=
  fun x => if x = k then b else f x

inductive SelectionStep where
  | selectBegin (k : String)
  | loadResolveOk (k : String)
  | loadResolveErr (k : String)
  | deselect (k : String)

/-- One atomic block of `setRouteSelectionInternal`:
  * `selectBegin k`: `state.selected = true; selectedRouteKeys.add(k)` then
    suspend on `ensureRouteLoaded`;
  * `loadResolveOk k`: the resume after a successful load (syncs layers and
    schedules a cluster rebuild; touches neither the flag nor the set);
  * `loadResolveErr k`: the catch branch
    (`state.selected = false; selectedRouteKeys.delete(k)` plus cleanup);
  * `deselect k`: the fully synchronous deselect branch. -/
def applySelectionStep (knownKeys : String → Bool) (st : SelectionState) :
    SelectionStep → SelectionState
  | .selectBegin k =>
    if knownKeys k then
      { selectedFlag := flagUpdate st.selectedFlag k true,
        selectedKeys := setAdd st.selectedKeys k }
    else st
  | .loadResolveOk _ => st
  | .loadResolveErr k =>
    if knownKeys k then
      { selectedFlag := flagUpdate st.selectedFlag k false,
        selectedKeys := setRemove st.selectedKeys k }
    else st
  | .deselect k =>
    if knownKeys k then
      { selectedFlag := flagUpdate st.selectedFlag k false,
        selectedKeys := setRemove st.selectedKeys k }
    else st

/-- The claimed invariant: `key ∈ selectedRouteKeys ⟺
routeState(key).selected === true`. -/
def SelectionConsistent (st : SelectionState) : Prop :=
  ∀ k, k ∈ st.selectedKeys ↔ st.selectedFlag k = true

/-! ## Single-flight loads (`ensureRouteLoaded` / `ensureRouteScheduleLoaded`)

Per-route load state machines.  A caller is a coroutine executing
`ensureRouteLoaded` (resp. `ensureRouteScheduleLoaded`); `enter i` runs
caller `i`'s synchronous prefix up to its first suspension, `resolveOk` /
`resolveErr` deliver the outcome of the unique in-flight network fetch
(resuming every caller awaiting the stored promise, and running the
creator's `finally` which clears the promise slot).  Fetched payloads are
modelled as `Nat`.  `prefetchScheduleForRoute` only feeds the schedule
machine and is irrelevant to either machine's own loads. -/

inductive LoadCallerPhase where
  | idle
  | waiting
  | doneOk (observed : Option Nat)
  | doneErr
deriving DecidableEq

inductive LoadEvent where
  | enter (i : Nat)
  | resolveOk (d : Nat)
  | resolveErr

structure GeoLoadState where
  routeData : Option Nat
  layer : Bool
  loadPromise : Bool
  pendingFetches : Nat
  fetchStarts : Nat
  callers : List LoadCallerPhase

/-- `ensureRouteLoaded` steps (the branches of the source in order:
layer already built; routeData cached (area filtering may pre-load);
a stored in-flight promise is awaited; otherwise a fetch is started and
its promise stored). -/
def applyGeoLoadEvent (st : GeoLoadState) : LoadEvent → GeoLoadState
  | .enter i =>
    match st.callers.get? i with
    | some .idle =>
      if st.layer then
        { st with callers := st.callers.set i (.doneOk st.routeData) }
      else if st.routeData.isSome then
        { st with layer := true,
                  callers := st.callers.set i (.doneOk st.routeData) }
      else if st.loadPromise then
        { st with callers := st.callers.set i .waiting }
      else
        { st with loadPromise := true,
                  pendingFetches := st.pendingFetches + 1,
                  fetchStarts := st.fetchStarts + 1,
                  callers := st.callers.set i .waiting }
    | _ => st
  | .resolveOk d =>
    if 0 < st.pendingFetches then
      { st with routeData := some d, layer := true, loadPromise := false,
                pendingFetches := st.pendingFetches - 1,
                callers := st.callers.map
                  (fun c => if c = .waiting then .doneOk (some d) else c) }
    else st
  | .resolveErr =>
    if 0 < st.pendingFetches then
      { st with loadPromise := false,
                pendingFetches := st.pendingFetches - 1,
                callers := st.callers.map
                  (fun c => if c = .waiting then .doneErr else c) }
    else st

def geoLoadInit (n : Nat) : GeoLoadState :=
  ⟨none, false, false, 0, 0, List.replicate n .idle⟩

def runGeoLoad (n : Nat) (evs : List LoadEvent) : GeoLoadState :=
  evs.foldl applyGeoLoadEvent (geoLoadInit n)

structure SchedLoadState where
  scheduleData : Option Nat
  scheduleLoadPromise : Bool
  pendingFetches : Nat
  fetchStarts : Nat
  callers : List LoadCallerPhase

/-- `ensureRouteScheduleLoaded` steps; `hasInline` models
`routeData.activeServicesByDayByDirection` being present and
`scheduleFile` the `resolveScheduleFile` result, both fixed per route. -/
def applySchedLoadEvent (hasInline : Bool) (scheduleFile : Option String)
    (st : SchedLoadState) : LoadEvent → SchedLoadState
  | .enter i =>
    match st.callers.get? i with
    | some .idle =>
      if hasInline then
        { st with callers := st.callers.set i (.doneOk none) }
      else if st.scheduleData.isSome then
        { st with callers := st.callers.set i (.doneOk st.scheduleData) }
      else if scheduleFile.isSome = false then
        { st with callers := st.callers.set i (.doneOk none) }
      else if st.scheduleLoadPromise then
        { st with callers := st.callers.set i .waiting }
      else
        { st with scheduleLoadPromise := true,
                  pendingFetches := st.pendingFetches + 1,
                  fetchStarts := st.fetchStarts + 1,
                  callers := st.callers.set i .waiting }
    | _ => st
  | .resolveOk d =>
    if 0 < st.pendingFetches then
      { st with scheduleData := some d, scheduleLoadPromise := false,
                pendingFetches := st.pendingFetches - 1,
                callers := st.callers.map
                  (fun c => if c = .waiting then .doneOk (some d) else c) }
    else st
  | .resolveErr =>
    if 0 < st.pendingFetches then
      { st with scheduleLoadPromise := false,
                pendingFetches := st.pendingFetches - 1,
                callers := st.callers.map
                  (fun c => if c = .waiting then .doneErr else c) }
    else st

def schedLoadInit (n : Nat) : SchedLoadState :=
  ⟨none, false, 0, 0, List.replicate n .idle⟩

def runSchedLoad (hasInline : Bool) (scheduleFile : Option String)
    (n : Nat) (evs : List LoadEvent) : SchedLoadState :=
  evs.foldl (applySchedLoadEvent hasInline scheduleFile) (schedLoadInit n)

/-! ## Stop clustering (`clusterStopVariants` / `getClusterRouteVariants`)

Coordinates are rationals.  The source's `projectToMeters` multiplies the
longitude by `METERS_PER_DEGREE * max(0.25, cos(lat·π/180))`; the
clustering algorithm is stated over the projection as a parameter (the
cosine is transcendental), and concrete runs instantiate it with
`projectEquator`, which agrees exactly with the source's projection at
latitude 0 where `cos` is exactly `1` and the `max` clamp is inactive.
The grid key ``cellX:cellY`` (a template string, injective in the pair)
is modelled by the pair itself. -/

structure StopVariant where
  routeKey : String
  stopId : String
  lat : ℚ
  lon : ℚ
deriving DecidableEq

def METERS_PER_DEGREE : ℚ := 111320

def STOP_CLUSTER_MERGE_DISTANCE_METERS : ℚ := 24

/-- `projectToMeters` at latitude 0 (see the section comment). -/
def projectEquator (lat lon : ℚ) : ℚ × ℚ :=
  (lon * METERS_PER_DEGREE, lat * METERS_PER_DEGREE)

/-- `getCellKey` (the template string is injective in `(x, y)`). -/
def getCellKey (x y : Int) : Int × Int := (x, y)

structure StopClusterBuildState where
  anchorX : ℚ
  anchorY : ℚ
  sumLat : ℚ
  sumLon : ℚ
  stopCount : Nat
  variants : List StopVariant
deriving DecidableEq

/-- One candidate comparison of the matching loop in
`clusterStopVariants` (accumulator = `(matchedClusterIndex,
bestDistanceSq)`; the JS index is always in range, so the `none` case is
unreachable). -/
def findMatchStep (clusters : List StopClusterBuildState) (px py : ℚ)
    (acc : Option Nat × ℚ) (clusterIndex : Nat) : Option Nat × ℚ :=
  match clusters.get? clusterIndex with
  | none => acc
  | some cluster =>
    let dx := px - cluster.anchorX
    let dy := py - cluster.anchorY
    if dx * dx + dy * dy ≤ acc.2 then (some clusterIndex, dx * dx + dy * dy)
    else acc

/-- The 3×3 neighborhood scan order of the two nested offset loops. -/
def clusterOffsets : List (Int × Int) :=
  [(-1, -1), (-1, 0), (-1, 1), (0, -1), (0, 0), (0, 1),
   (1, -1), (1, 0), (1, 1)]

/-- The candidate search of `clusterStopVariants` over the spatial hash
grid (`bestDistanceSq` starts at the merge threshold squared; a candidate
within `<=` of the current best replaces it). -/
def findMatch (clusters : List StopClusterBuildState)
    (grid : List ((Int × Int) × List Nat)) (cellX cellY : Int)
    (px py : ℚ) : Option Nat × ℚ :=
  clusterOffsets.foldl
    (fun acc off =>
      ((JsMap.get grid (getCellKey (cellX + off.1) (cellY + off.2))).getD
        []).foldl (findMatchStep clusters px py) acc)
    (none, STOP_CLUSTER_MERGE_DISTANCE_METERS *
      STOP_CLUSTER_MERGE_DISTANCE_METERS)

/-- One iteration of the main loop of `clusterStopVariants`: project the
variant, look for the nearest cluster anchor within the threshold among
the 3×3 neighboring grid cells, and either accrete onto the matched
cluster (anchor unchanged; sums and count grow) or found a new cluster
registered in the grid cell of its anchor. -/
def clusterStep (project : ℚ → ℚ → ℚ × ℚ)
    (st : List StopClusterBuildState × List ((Int × Int) × List Nat))
    (variant : StopVariant) :
    List StopClusterBuildState × List ((Int × Int) × List Nat) :=
  let clusters := st.1
  let grid := st.2
  let projected := project variant.lat variant.lon
  let cellX := ⌊projected.1 / STOP_CLUSTER_MERGE_DISTANCE_METERS⌋
  let cellY := ⌊projected.2 / STOP_CLUSTER_MERGE_DISTANCE_METERS⌋
  match (findMatch clusters grid cellX cellY projected.1 projected.2).1 with
  | some matchedClusterIndex =>
    match clusters.get? matchedClusterIndex with
    | some cluster =>
      (clusters.set matchedClusterIndex
        { cluster with
            variants := cluster.variants ++ [variant],
            sumLat := cluster.sumLat + variant.lat,
            sumLon := cluster.sumLon + variant.lon,
            stopCount := cluster.stopCount + 1 },
       grid)
    | none => (clusters, grid)
  | none =>
    let clusterIndex := clusters.length
    let key := getCellKey cellX cellY
    let bucket := (JsMap.get grid key).getD []
    (clusters ++
      [{ anchorX := projected.1, anchorY := projected.2,
         sumLat := variant.lat, sumLon := variant.lon,
         stopCount := 1, variants := [variant] }],
     JsMap.set grid key (bucket ++ [clusterIndex]))

/-- `clusterStopVariants`. -/
def clusterStopVariants (project : ℚ → ℚ → ℚ × ℚ)
    (variants : List StopVariant) : List StopClusterBuildState :=
  (variants.foldl (clusterStep project) ([], [])).1

/-- One iteration of the `byRouteKey` loop of `getClusterRouteVariants`:
record the variant under its route key unless an already-recorded variant
of the same route is at least as close — strictly closer replaces. -/
def routeVariantStep (dist : ℚ × ℚ → ℚ × ℚ → ℚ)
    (centerLat centerLon : ℚ)
    (m : List (String × (StopVariant × ℚ))) (variant : StopVariant) :
    List (String × (StopVariant × ℚ)) :=
  let distanceMeters :=
    dist (centerLat, centerLon) (variant.lat, variant.lon)
  match JsMap.get m variant.routeKey with
  | none => JsMap.set m variant.routeKey (variant, distanceMeters)
  | some existing =>
    if distanceMeters < existing.2 then
      JsMap.set m variant.routeKey (variant, distanceMeters)
    else m

/-- `getClusterRouteVariants`: keep, per route key, the variant nearest
the cluster's final centroid `(centerLat, centerLon)` (strict `<`: the
first-seen variant wins ties), then sort.  `dist` stands for Leaflet's
`map.distance` (spherical, transcendental) and `cmp` for
`compareStopVariants` (locale-dependent `localeCompare` collation); both
are parameters, and the claims hold for every choice. -/
def getClusterRouteVariants (dist : ℚ × ℚ → ℚ × ℚ → ℚ)
    (cmp : StopVariant → StopVariant → Bool)
    (cluster : StopClusterBuildState) (centerLat centerLon : ℚ) :
    List StopVariant :=
  let byRouteKey := cluster.variants.foldl
    (routeVariantStep dist centerLat centerLon) []
  (byRouteKey.map (fun entry => entry.2.1)).mergeSort cmp

/-! ## Token-guarded popup content (`src/lib/attachInteractivePopup.ts`) -/

inductive PopupContent where
  | loading
  | content (html : String)
  | errorContent
deriving DecidableEq

structure PopupState where
  popupRequestToken : Nat
  isOpen : Bool
  content : PopupContent

/-- The synchronous part of `openPopup`: pre-increments the monotonic
request token (captured by the spawned content request), shows the loading
placeholder and opens the popup.  Returns the new state together with the
captured token. -/
def openPopup (s : PopupState) : PopupState × Nat :=
  let token := s.popupRequestToken + 1
  ({ popupRequestToken := token, isOpen := true,
     content := PopupContent.loading }, token)

/-- `marker.closePopup()` as observed by the guards (`isPopupOpen`). -/
def closePopup (s : PopupState) : PopupState :=
  { s with isOpen := false }

/-- The `.then` continuation of a content request that captured `token`:
applied only if the token still equals the latest and the popup is still
open; otherwise silently discarded. -/
def resolvePopupContent (s : PopupState) (token : Nat) (html : String) :
    PopupState :=
  if token ≠ s.popupRequestToken then s
  else if s.isOpen = false then s
  else { s with content := PopupContent.content html }

/-- The `.catch` continuation: same guards, error placeholder. -/
def rejectPopupContent (s : PopupState) (token : Nat) : PopupState :=
  if token ≠ s.popupRequestToken then s
  else if s.isOpen = false then s
  else { s with content := PopupContent.errorContent }

/-! ## Failed selection atomicity (`setRouteSelectionInternal`) -/

structure RouteSelState where
  selected : Bool
  inSelectedKeys : Bool
  routeData : Option Nat
  layer : Bool
  shortName : String
  fetchCount : Nat
  statusMessage : Option String

/-- One uncontended `setRouteSelection(key, true)` call with the outcome
of the geometry fetch injected (`Except.error e` models a rejected fetch
whose error message is `e`; for a non-Error throw the source substitutes
"Unknown error" as the message).  Follows `setRouteSelectionInternal` and
`ensureRouteLoaded`: mark selected and add the key; a cache hit (`layer`
or `routeData` present) issues no fetch; otherwise the fetch runs and — on
failure — the catch branch reverts the flag, removes the key and surfaces
the status message (`routeData` stays unset and `ensureRouteLoaded`'s
`finally` clears the promise slot, so nothing is cached and no retry is
issued).  The function returns normally in every case: the catch swallows
the error, so nothing is thrown to the caller. -/
def setRouteSelectionTrue (st : RouteSelState)
    (outcome : Except String Nat) : RouteSelState :=
  let st1 := { st with selected := true, inSelectedKeys := true }
  if st1.layer then st1
  else if st1.routeData.isSome then { st1 with layer := true }
  else
    match outcome with
    | .ok d =>
      { st1 with routeData := some d, layer := true,
                 fetchCount := st1.fetchCount + 1 }
    | .error e =>
      { st1 with fetchCount := st1.fetchCount + 1,
                 selected := false, inSelectedKeys := false,
                 statusMessage := some ("Failed to load route " ++
                   st1.shortName ++ ": " ++ e) }

/-! ## Live-vehicle layer sync (`src/lib/liveVehicleLayerManager.ts`) -/

structure LiveVehicle where
  id : String
  routeKey : String
  lat : ℚ
  lon : ℚ
  bearing : Option ℚ
deriving DecidableEq

/-- `syncVehicleLayers`: drop response vehicles whose route key is not in
the selected realtime set, key the survivors by vehicle id (later
duplicates overwrite, as `Map.set` does), remove rendered markers absent
from the survivors, then create/update a marker per surviving vehicle.
A marker is modelled by the vehicle it targets (animation is rendering
side-effect). -/
def syncVehicleLayers (selectedRouteKeys : List String)
    (layersByVehicleId : List (String × LiveVehicle))
    (vehicles : List LiveVehicle) : List (String × LiveVehicle) :=
  let nextById := vehicles.foldl
    (fun m v =>
      if v.routeKey ∈ selectedRouteKeys then JsMap.set m v.id v else m) []
  let kept := layersByVehicleId.filter
    (fun p => JsMap.contains nextById p.1)
  nextById.foldl (fun m p => JsMap.set m p.1 p.2) kept

/-- Inductive invariant of the geometry-load machine. -/
def GeoLoadInv (st : GeoLoadState) : Prop :=
  st.pendingFetches ≤ 1 ∧
  (0 < st.pendingFetches → st.loadPromise = true) ∧
  (st.loadPromise = true → st.routeData = none) ∧
  (st.layer = true → st.routeData.isSome = true) ∧
  (∀ obs, LoadCallerPhase.doneOk obs ∈ st.callers →
    obs = st.routeData ∧ obs.isSome = true)

/-- Inductive invariant of the schedule-load machine. -/
def SchedLoadInv (hasInline : Bool) (scheduleFile : Option String)
    (st : SchedLoadState) : Prop :=
  st.pendingFetches ≤ 1 ∧
  (0 < st.pendingFetches → st.scheduleLoadPromise = true) ∧
  (st.scheduleLoadPromise = true →
    st.scheduleData = none ∧ hasInline = false ∧
    scheduleFile.isSome = true) ∧
  (hasInline = true → st.scheduleData = none) ∧
  (scheduleFile.isSome = false → st.scheduleData = none) ∧
  (∀ obs, LoadCallerPhase.doneOk obs ∈ st.callers →
    obs = st.scheduleData) ∧
  (hasInline = false → scheduleFile.isSome = true →
    ∀ obs, LoadCallerPhase.doneOk obs ∈ st.callers → obs.isSome = true)

/-! # Theorems -/

/-! ## JS `Map` lemmas -/

namespace JsMap

variable {κ α : Type} [DecidableEq κ]

theorem get_set_self (m : List (κ × α)) (k : κ) (v : α) :
    get (set m k v) k = some v := by
  induction m with
  | nil => simp [get, set]
  | cons p t ih =>
    by_cases hp : p.1 = k
    · simp [get, set, hp]
    · simpa [get, set, hp] using ih

theorem get_set_ne (m : List (κ × α)) (k k' : κ) (v : α) (h : k' ≠ k) :
    get (set m k v) k' = get m k' := by
  induction m with
  | nil => simp [get, set, Ne.symm h]
  | cons p t ih =>
    by_cases hp : p.1 = k
    · simp [get, set, hp, Ne.symm h]
    · by_cases hq : p.1 = k'
      · simp [get, set, hp, hq, h, Ne.symm h]
      · simpa [get, set, hp, hq] using ih

theorem get_del_self (m : List (κ × α)) (k : κ) :
    get (del m k) k = none := by
  induction m with
  | nil => simp [del, get]
  | cons p t ih =>
    by_cases hp : p.1 = k
    · simpa [del, get, hp] using ih
    · simpa [del, get, hp] using ih

theorem get_del_ne (m : List (κ × α)) (k k' : κ) (h : k' ≠ k) :
    get (del m k) k' = get m k' := by
  induction m with
  | nil => simp [del, get]
  | cons p t ih =>
    by_cases hp : p.1 = k
    · have hp' : p.1 ≠ k' := by
        rw [hp]; exact Ne.symm h
      simpa [del, get, hp, hp', Ne.symm h] using ih
    · by_cases hq : p.1 = k'
      · simp [del, get, hp, hq, h, Ne.symm h]
      · simpa [del, get, hp, hq] using ih

theorem mem_set_self (m : List (κ × α)) (k : κ) (v : α) :
    (k, v) ∈ set m k v := by
  induction m with
  | nil => simp [set]
  | cons p t ih =>
    by_cases hp : p.1 = k
    · simp [set, hp]
    · simp only [set, if_neg hp]
      exact List.mem_cons_of_mem _ ih

theorem mem_set_of_mem_ne (m : List (κ × α)) (k : κ) (v : α)
    {p : κ × α} (hp : p ∈ m) (hk : p.1 ≠ k) :
    p ∈ set m k v := by
  induction m with
  | nil => simp at hp
  | cons q t ih =>
    by_cases hq : q.1 = k
    · simp only [set, if_pos hq]
      rcases List.mem_cons.1 hp with h | h
      · exact absurd (h ▸ hq) hk
      · exact List.mem_cons_of_mem _ h
    · simp only [set, if_neg hq]
      rcases List.mem_cons.1 hp with h | h
      · exact h ▸ List.mem_cons_self _ _
      · exact List.mem_cons_of_mem _ (ih h)

theorem mem_del_of_mem_ne (m : List (κ × α)) (k : κ)
    {p : κ × α} (hp : p ∈ m) (hk : p.1 ≠ k) :
    p ∈ del m k := by
  unfold del
  exact List.mem_filter.2 ⟨hp, by simpa using hk⟩

theorem of_mem_set (m : List (κ × α)) (k : κ) (v : α)
    {p : κ × α} (hp : p ∈ set m k v) :
    p ∈ m ∨ p = (k, v) := by
  induction m with
  | nil => simpa [set] using hp
  | cons q t ih =>
    by_cases hq : q.1 = k
    · simp only [set, if_pos hq] at hp
      rcases List.mem_cons.1 hp with h | h
      · exact Or.inr h
      · exact Or.inl (List.mem_cons_of_mem _ h)
    · simp only [set, if_neg hq] at hp
      rcases List.mem_cons.1 hp with h | h
      · exact Or.inl (h ▸ List.mem_cons_self _ _)
      · rcases ih h with h' | h'
        · exact Or.inl (List.mem_cons_of_mem _ h')
        · exact Or.inr h'

theorem of_mem_del (m : List (κ × α)) (k : κ)
    {p : κ × α} (hp : p ∈ del m k) :
    p ∈ m ∧ p.1 ≠ k := by
  unfold del at hp
  have := List.mem_filter.1 hp
  exact ⟨this.1, by simpa using this.2⟩

end JsMap

/-! ## Bearing lemmas -/

theorem jsMod_nonneg_of_nonneg {a b : ℚ} (ha : 0 ≤ a) (hb : 0 < b) :
    0 ≤ jsMod a b := by
  have hq : 0 ≤ a / b := div_nonneg ha hb.le
  have hfl : (⌊a / b⌋ : ℚ) ≤ a / b := Int.floor_le _
  have hmul : b * (⌊a / b⌋ : ℚ) ≤ b * (a / b) :=
    mul_le_mul_of_nonneg_left hfl hb.le
  have hba : b * (a / b) = a := by
    field_simp
  unfold jsMod jsTrunc
  rw [if_pos hq]
  linarith [hmul, hba]

theorem jsMod_lt_of_nonneg {a b : ℚ} (ha : 0 ≤ a) (hb : 0 < b) :
    jsMod a b < b := by
  have hq : 0 ≤ a / b := div_nonneg ha hb.le
  have hfl : a / b < (⌊a / b⌋ : ℚ) + 1 := Int.lt_floor_add_one _
  have hmul : b * (a / b) < b * ((⌊a / b⌋ : ℚ) + 1) :=
    (mul_lt_mul_left hb).2 hfl
  have hba : b * (a / b) = a := by
    field_simp
  unfold jsMod jsTrunc
  rw [if_pos hq]
  nlinarith [hmul, hba]

theorem jsMod_nonpos_of_nonpos {a b : ℚ} (ha : a < 0) (hb : 0 < b) :
    jsMod a b ≤ 0 := by
  have hq : ¬ 0 ≤ a / b := by
    have : a / b < 0 := div_neg_of_neg_of_pos ha hb
    linarith
  have hcl : a / b ≤ (⌈a / b⌉ : ℚ) := Int.le_ceil _
  have hmul : b * (a / b) ≤ b * (⌈a / b⌉ : ℚ) :=
    mul_le_mul_of_nonneg_left hcl hb.le
  have hba : b * (a / b) = a := by
    field_simp
  unfold jsMod jsTrunc
  rw [if_neg hq]
  linarith [hmul, hba]

theorem neg_lt_jsMod_of_nonpos {a b : ℚ} (ha : a < 0) (hb : 0 < b) :
    -b < jsMod a b := by
  have hq : ¬ 0 ≤ a / b := by
    have : a / b < 0 := div_neg_of_neg_of_pos ha hb
    linarith
  have hcl : (⌈a / b⌉ : ℚ) < a / b + 1 := Int.ceil_lt_add_one _
  have hmul : b * (⌈a / b⌉ : ℚ) < b * (a / b + 1) :=
    (mul_lt_mul_left hb).2 hcl
  have hba : b * (a / b) = a := by
    field_simp
  unfold jsMod jsTrunc
  rw [if_neg hq]
  nlinarith [hmul, hba]

theorem neg_lt_jsMod (a : ℚ) {b : ℚ} (hb : 0 < b) : -b < jsMod a b := by
  rcases le_or_lt 0 a with ha | ha
  · have := jsMod_nonneg_of_nonneg ha hb
    linarith
  · exact neg_lt_jsMod_of_nonpos ha hb

theorem jsMod_lt (a : ℚ) {b : ℚ} (hb : 0 < b) : jsMod a b < b := by
  rcases le_or_lt 0 a with ha | ha
  · exact jsMod_lt_of_nonneg ha hb
  · have := jsMod_nonpos_of_nonpos ha hb
    linarith

theorem normalizeBearing_mem_Ico (value : ℚ) :
    ∃ r, normalizeBearing (some value) = some r ∧ 0 ≤ r ∧ r < 360 := by
  refine ⟨jsMod (jsMod value 360 + 360) 360, rfl, ?_, ?_⟩
  · have h1 : -(360 : ℚ) < jsMod value 360 := neg_lt_jsMod value (by norm_num)
    have h2 : 0 ≤ jsMod value 360 + 360 := by linarith
    exact jsMod_nonneg_of_nonneg h2 (by norm_num)
  · exact jsMod_lt _ (by norm_num)

theorem jsTrunc_eq_of_nonneg {q : ℚ} (n : ℤ) (h0 : 0 ≤ q)
    (h1 : (n : ℚ) ≤ q) (h2 : q < n + 1) : jsTrunc q = n := by
  unfold jsTrunc
  rw [if_pos h0]
  exact Int.floor_eq_iff.2 ⟨h1, h2⟩

theorem jsTrunc_eq_of_neg {q : ℚ} (n : ℤ) (h0 : ¬ 0 ≤ q)
    (h1 : (n : ℚ) - 1 < q) (h2 : q ≤ n) : jsTrunc q = n := by
  unfold jsTrunc
  rw [if_neg h0]
  exact Int.ceil_eq_iff.2 ⟨h1, h2⟩

theorem jsMod_eval (a b r : ℚ) (t : ℤ) (ht : jsTrunc (a / b) = t)
    (hr : a - b * t = r) : jsMod a b = r := by
  unfold jsMod
  rw [ht, hr]

theorem bearingDelta_mem_Ico (s e : ℚ) :
    -180 ≤ bearingDelta s e ∧ bearingDelta s e < 180 := by
  have hin1 : -(360 : ℚ) < jsMod (e - s) 360 := neg_lt_jsMod _ (by norm_num)
  have hpos : 0 ≤ jsMod (e - s) 360 + 540 := by linarith
  have h0 : 0 ≤ jsMod (jsMod (e - s) 360 + 540) 360 :=
    jsMod_nonneg_of_nonneg hpos (by norm_num)
  have h1 : jsMod (jsMod (e - s) 360 + 540) 360 < 360 :=
    jsMod_lt _ (by norm_num)
  constructor
  · unfold bearingDelta; linarith
  · unfold bearingDelta; linarith

/-! ## Preview arbitration lemmas -/

theorem start_unfold (selected : String → Bool) (s : PreviewState)
    (k : String) (d : Option String) (h : selected k = true) :
    startStationHoverPreview selected s k d =
      { hoverCounts := JsMap.set s.hoverCounts k (hoverCount s k + 1),
        activationOrder := JsMap.set s.activationOrder k (s.seq + 1),
        previewDirection :=
          match d with
          | some dd => JsMap.set s.previewDirection k dd
          | none => JsMap.del s.previewDirection k,
        activeKey := some k,
        seq := s.seq + 1 } := by
  simp [startStationHoverPreview, h, applyActivePreviewRoute]

theorem mem_of_get_eq {κ α : Type} [DecidableEq κ]
    (m : List (κ × α)) (k : κ) (v : α) (h : JsMap.get m k = some v) :
    (k, v) ∈ m := by
  induction m with
  | nil => simp [JsMap.get] at h
  | cons p t ih =>
    by_cases hp : p.1 = k
    · simp only [JsMap.get, if_pos hp] at h
      have : p = (k, v) := by
        cases p
        simp_all
      exact this ▸ List.mem_cons_self _ _
    · simp only [JsMap.get, if_neg hp] at h
      exact List.mem_cons_of_mem _ (ih h)

theorem pickStep_keep_or_some (selected : String → Bool) (s : PreviewState)
    (acc : Option String × Int) (p : String × Nat) :
    pickStep selected s acc p = acc ∨
      (pickStep selected s acc p).1.isSome = true := by
  unfold pickStep
  by_cases h1 : p.2 ≤ 0
  · simp [h1]
  · by_cases h2 : selected p.1 = true
    · by_cases h3 : activationOf s p.1 > acc.2
      · simp [h1, h2, h3]
      · simp [h1, h2, h3]
    · simp [h1, h2]

theorem pickFold_isSome (selected : String → Bool) (s : PreviewState) :
    ∀ (t : List (String × Nat)) (acc : Option String × Int),
      acc.1.isSome = true →
      ((t.foldl (pickStep selected s) acc).1).isSome = true := by
  intro t
  induction t with
  | nil => intro acc h; simpa using h
  | cons p t ih =>
    intro acc h
    rw [List.foldl_cons]
    rcases pickStep_keep_or_some selected s acc p with he | hs
    · rw [he]; exact ih acc h
    · exact ih _ hs

theorem pickFold_stable (selected : String → Bool) (s : PreviewState) :
    ∀ (t : List (String × Nat)) (x : Option String) (m : Int),
      (∀ p ∈ t, 0 < p.2 → selected p.1 = true → activationOf s p.1 ≤ m) →
      t.foldl (pickStep selected s) (x, m) = (x, m) := by
  intro t
  induction t with
  | nil => intro x m _; rfl
  | cons p t ih =>
    intro x m h
    rw [List.foldl_cons]
    have hstep : pickStep selected s (x, m) p = (x, m) := by
      unfold pickStep
      by_cases h1 : p.2 ≤ 0
      · simp [h1]
      · have h0 : 0 < p.2 := Nat.lt_of_not_le (fun hc => h1 hc)
        by_cases h2 : selected p.1 = true
        · have hle : activationOf s p.1 ≤ m :=
            h p (List.mem_cons_self _ _) h0 h2
          have h3 : ¬ activationOf s p.1 > m := not_lt.2 hle
          simp [h1, h2, h3]
        · simp [h1, h2]
    rw [hstep]
    exact ih x m (fun q hq => h q (List.mem_cons_of_mem _ hq))

theorem pickFold_max (selected : String → Bool) (s : PreviewState)
    (A : String) :
    ∀ (t : List (String × Nat)) (x : Option String) (m : Int),
      (∃ c, (A, c) ∈ t ∧ 0 < c) →
      selected A = true →
      (∀ p ∈ t, 0 < p.2 → selected p.1 = true →
        activationOf s p.1 ≤ activationOf s A ∧
        (activationOf s p.1 = activationOf s A → p.1 = A)) →
      m < activationOf s A →
      t.foldl (pickStep selected s) (x, m) =
        (some A, activationOf s A) := by
  intro t
  induction t with
  | nil =>
    intro x m hwit _ _ _
    rcases hwit with ⟨c, hc, _⟩
    simp at hc
  | cons p t ih =>
    intro x m hwit hselA hbound hm
    rw [List.foldl_cons]
    by_cases h1 : p.2 ≤ 0
    · have hstep : pickStep selected s (x, m) p = (x, m) := by
        unfold pickStep; simp [h1]
      rw [hstep]
      rcases hwit with ⟨c, hc, hcp⟩
      rcases List.mem_cons.1 hc with he | ht
      · exfalso
        have : p.2 = c := by rw [← he]
        omega
      · exact ih x m ⟨c, ht, hcp⟩ hselA
          (fun q hq => hbound q (List.mem_cons_of_mem _ hq)) hm
    · have h0 : 0 < p.2 := Nat.lt_of_not_le (fun hc => h1 hc)
      by_cases h2 : selected p.1 = true
      · by_cases hA : p.1 = A
        · have hact : activationOf s p.1 = activationOf s A := by rw [hA]
          have h3 : activationOf s p.1 > m := by
            rw [hact]; exact hm
          have hstep : pickStep selected s (x, m) p =
              (some A, activationOf s A) := by
            unfold pickStep
            simp [h1, h2, h3, hA, hselA, hm]
          rw [hstep]
          exact pickFold_stable selected s t (some A) (activationOf s A)
            (fun q hq hq0 hqsel =>
              (hbound q (List.mem_cons_of_mem _ hq) hq0 hqsel).1)
        · have hlt : activationOf s p.1 < activationOf s A := by
            have hb := hbound p (List.mem_cons_self _ _) h0 h2
            rcases lt_or_eq_of_le hb.1 with h | h
            · exact h
            · exact absurd (hb.2 h) hA
          have hwit' : ∃ c, (A, c) ∈ t ∧ 0 < c := by
            rcases hwit with ⟨c, hc, hcp⟩
            rcases List.mem_cons.1 hc with he | ht
            · exfalso; apply hA; rw [← he]
            · exact ⟨c, ht, hcp⟩
          have hbound' := fun q hq => hbound q (List.mem_cons_of_mem _ hq)
          by_cases h3 : activationOf s p.1 > m
          · have hstep : pickStep selected s (x, m) p =
                (some p.1, activationOf s p.1) := by
              unfold pickStep; simp [h1, h2, h3]
            rw [hstep]
            exact ih (some p.1) (activationOf s p.1) hwit' hselA hbound' hlt
          · have hstep : pickStep selected s (x, m) p = (x, m) := by
              unfold pickStep; simp [h1, h2, h3]
            rw [hstep]
            exact ih x m hwit' hselA hbound' hm
      · have hstep : pickStep selected s (x, m) p = (x, m) := by
          unfold pickStep; simp [h1, h2]
        rw [hstep]
        have hwit' : ∃ c, (A, c) ∈ t ∧ 0 < c := by
          rcases hwit with ⟨c, hc, hcp⟩
          rcases List.mem_cons.1 hc with he | ht
          · exfalso
            apply h2
            have : p.1 = A := by rw [← he]
            rw [this]; exact hselA
          · exact ⟨c, ht, hcp⟩
        exact ih x m hwit' hselA
          (fun q hq => hbound q (List.mem_cons_of_mem _ hq)) hm

theorem pickFold_ne_none_aux (selected : String → Bool) (s : PreviewState)
    (k : String) (c n : Nat) (hc : 0 < c) (hsel : selected k = true)
    (hact : JsMap.get s.activationOrder k = some n) :
    ∀ (t : List (String × Nat)) (acc : Option String × Int),
      (acc.1 = none → acc.2 = -1) → (k, c) ∈ t →
      ((t.foldl (pickStep selected s) acc).1).isSome = true := by
  intro t
  induction t with
  | nil => intro acc _ hmem; simp at hmem
  | cons p t ih =>
    intro acc hinv hmem
    rw [List.foldl_cons]
    by_cases hacc : acc.1.isSome = true
    · rcases pickStep_keep_or_some selected s acc p with he | hs
      · rw [he]; exact pickFold_isSome selected s t acc hacc
      · exact pickFold_isSome selected s t _ hs
    · have hnone : acc.1 = none := by
        cases h : acc.1
        · rfl
        · rw [h] at hacc; simp at hacc
      have hm : acc.2 = -1 := hinv hnone
      rcases List.mem_cons.1 hmem with he | ht
      · have hk : p.1 = k := by rw [← he]
        have hcp : p.2 = c := by rw [← he]
        have h1 : ¬ p.2 ≤ 0 := by omega
        have h2 : selected p.1 = true := by rw [hk]; exact hsel
        have hactp : activationOf s p.1 = (n : Int) := by
          rw [hk]
          unfold activationOf
          rw [hact]
          rfl
        have h3 : activationOf s p.1 > acc.2 := by
          rw [hactp, hm]
          omega
        have hstep : pickStep selected s acc p =
            (some p.1, activationOf s p.1) := by
          unfold pickStep
          simp [h1, h2, h3]
        rw [hstep]
        exact pickFold_isSome selected s t _ rfl
      · rcases pickStep_keep_or_some selected s acc p with he2 | hs
        · rw [he2]
          exact ih acc hinv ht
        · exact pickFold_isSome selected s t _ hs

/-- **C1** (preview arbitration precedence): with routes `A` and `B` both
selected (and having layers), after `startStationHoverPreview A` then
`startStationHoverPreview B`, `shouldShowSelectedRoute` holds exactly for
`B`; after `endStationHoverPreview B`, while `A`'s hover session is still
active (its hover count is positive), `A` becomes the preview-active route
and `A`'s layer is shown again.  Moreover `pickNextPreviewRouteKey` falls
back to a still-active selected route (never `none`) whenever some selected
route has a positive hover count together with an activation-order entry. -/
theorem preview_arbitration_precedence
    (selected hasLayer : String → Bool) (s : PreviewState) (A B : String)
    (hInv : ∀ p ∈ s.activationOrder, p.2 ≤ s.seq)
    (hAB : A ≠ B)
    (hselA : selected A = true) (hselB : selected B = true)
    (hlayA : hasLayer A = true) (hlayB : hasLayer B = true)
    (hcntB : hoverCount s B = 0) :
    (∀ k, shouldShowSelectedRoute selected hasLayer
        (startStationHoverPreview selected
          (startStationHoverPreview selected s A none) B none) k = true ↔
        k = B) ∧
    (endStationHoverPreview selected
        (startStationHoverPreview selected
          (startStationHoverPreview selected s A none) B none) B).activeKey
      = some A ∧
    0 < hoverCount (endStationHoverPreview selected
        (startStationHoverPreview selected
          (startStationHoverPreview selected s A none) B none) B) A ∧
    shouldShowSelectedRoute selected hasLayer
      (endStationHoverPreview selected
        (startStationHoverPreview selected
          (startStationHoverPreview selected s A none) B none) B) A
      = true ∧
    (∀ (sel : String → Bool) (s' : PreviewState) (k : String) (c n : Nat),
      (k, c) ∈ s'.hoverCounts → 0 < c → sel k = true →
      JsMap.get s'.activationOrder k = some n →
      pickNextPreviewRouteKey sel s' ≠ none) := by
  have hBA : B ≠ A := Ne.symm hAB
  have e1 : startStationHoverPreview selected s A none =
      (⟨JsMap.set s.hoverCounts A (hoverCount s A + 1),
        JsMap.set s.activationOrder A (s.seq + 1),
        JsMap.del s.previewDirection A,
        some A, s.seq + 1⟩ : PreviewState) := by
    simp [startStationHoverPreview, hselA, applyActivePreviewRoute]
  rw [e1]
  have hcLitB : hoverCount
      (⟨JsMap.set s.hoverCounts A (hoverCount s A + 1),
        JsMap.set s.activationOrder A (s.seq + 1),
        JsMap.del s.previewDirection A,
        some A, s.seq + 1⟩ : PreviewState) B = 0 := by
    unfold hoverCount at hcntB ⊢
    simpa [JsMap.get_set_ne _ _ _ _ hBA] using hcntB
  have e2 : startStationHoverPreview selected
      (⟨JsMap.set s.hoverCounts A (hoverCount s A + 1),
        JsMap.set s.activationOrder A (s.seq + 1),
        JsMap.del s.previewDirection A,
        some A, s.seq + 1⟩ : PreviewState) B none =
      (⟨JsMap.set (JsMap.set s.hoverCounts A (hoverCount s A + 1)) B 1,
        JsMap.set (JsMap.set s.activationOrder A (s.seq + 1)) B (s.seq + 1 + 1),
        JsMap.del (JsMap.del s.previewDirection A) B,
        some B, s.seq + 1 + 1⟩ : PreviewState) := by
    simp [startStationHoverPreview, hselB, applyActivePreviewRoute, hcLitB]
  rw [e2]
  have hc2B : hoverCount
      (⟨JsMap.set (JsMap.set s.hoverCounts A (hoverCount s A + 1)) B 1,
        JsMap.set (JsMap.set s.activationOrder A (s.seq + 1)) B (s.seq + 1 + 1),
        JsMap.del (JsMap.del s.previewDirection A) B,
        some B, s.seq + 1 + 1⟩ : PreviewState) B = 1 := by
    unfold hoverCount
    simp [JsMap.get_set_self]
  have e3 : endStationHoverPreview selected
      (⟨JsMap.set (JsMap.set s.hoverCounts A (hoverCount s A + 1)) B 1,
        JsMap.set (JsMap.set s.activationOrder A (s.seq + 1)) B (s.seq + 1 + 1),
        JsMap.del (JsMap.del s.previewDirection A) B,
        some B, s.seq + 1 + 1⟩ : PreviewState) B =
      applyActivePreviewRoute
        (⟨JsMap.del (JsMap.set (JsMap.set s.hoverCounts A (hoverCount s A + 1)) B 1) B,
          JsMap.del (JsMap.set (JsMap.set s.activationOrder A (s.seq + 1)) B (s.seq + 1 + 1)) B,
          JsMap.del (JsMap.del (JsMap.del s.previewDirection A) B) B,
          some B, s.seq + 1 + 1⟩ : PreviewState)
        (pickNextPreviewRouteKey selected
          (⟨JsMap.del (JsMap.set (JsMap.set s.hoverCounts A (hoverCount s A + 1)) B 1) B,
            JsMap.del (JsMap.set (JsMap.set s.activationOrder A (s.seq + 1)) B (s.seq + 1 + 1)) B,
            JsMap.del (JsMap.del (JsMap.del s.previewDirection A) B) B,
            some B, s.seq + 1 + 1⟩ : PreviewState)) := by
    unfold endStationHoverPreview
    simp only [hc2B]
    norm_num
    unfold hoverCount
    simp [JsMap.get_del_self]
  rw [e3]
  have hactA : activationOf
      (⟨JsMap.del (JsMap.set (JsMap.set s.hoverCounts A (hoverCount s A + 1)) B 1) B,
        JsMap.del (JsMap.set (JsMap.set s.activationOrder A (s.seq + 1)) B (s.seq + 1 + 1)) B,
        JsMap.del (JsMap.del (JsMap.del s.previewDirection A) B) B,
        some B, s.seq + 1 + 1⟩ : PreviewState) A = ((s.seq + 1 : Nat) : Int) := by
    unfold activationOf
    simp [JsMap.get_del_ne _ _ _ hAB, JsMap.get_set_ne _ _ _ _ hAB,
      JsMap.get_set_self]
  have hpick : pickNextPreviewRouteKey selected
      (⟨JsMap.del (JsMap.set (JsMap.set s.hoverCounts A (hoverCount s A + 1)) B 1) B,
        JsMap.del (JsMap.set (JsMap.set s.activationOrder A (s.seq + 1)) B (s.seq + 1 + 1)) B,
        JsMap.del (JsMap.del (JsMap.del s.previewDirection A) B) B,
        some B, s.seq + 1 + 1⟩ : PreviewState) = some A := by
    have hwit : ∃ c, (A, c) ∈
        JsMap.del (JsMap.set (JsMap.set s.hoverCounts A (hoverCount s A + 1)) B 1) B ∧
        0 < c := by
      refine ⟨hoverCount s A + 1, ?_, Nat.succ_pos _⟩
      apply JsMap.mem_del_of_mem_ne
      · exact JsMap.mem_set_of_mem_ne _ _ _ (JsMap.mem_set_self _ _ _) hAB
      · exact hAB
    have hbound : ∀ p ∈
        JsMap.del (JsMap.set (JsMap.set s.hoverCounts A (hoverCount s A + 1)) B 1) B,
        0 < p.2 → selected p.1 = true →
        activationOf
          (⟨JsMap.del (JsMap.set (JsMap.set s.hoverCounts A (hoverCount s A + 1)) B 1) B,
            JsMap.del (JsMap.set (JsMap.set s.activationOrder A (s.seq + 1)) B (s.seq + 1 + 1)) B,
            JsMap.del (JsMap.del (JsMap.del s.previewDirection A) B) B,
            some B, s.seq + 1 + 1⟩ : PreviewState) p.1 ≤ ((s.seq + 1 : Nat) : Int) ∧
        (activationOf
          (⟨JsMap.del (JsMap.set (JsMap.set s.hoverCounts A (hoverCount s A + 1)) B 1) B,
            JsMap.del (JsMap.set (JsMap.set s.activationOrder A (s.seq + 1)) B (s.seq + 1 + 1)) B,
            JsMap.del (JsMap.del (JsMap.del s.previewDirection A) B) B,
            some B, s.seq + 1 + 1⟩ : PreviewState) p.1 = ((s.seq + 1 : Nat) : Int) →
          p.1 = A) := by
      intro p hp hp2 hpsel
      have hpB : p.1 ≠ B := (JsMap.of_mem_del _ _ hp).2
      by_cases hpA : p.1 = A
      · rw [hpA, hactA]
        exact ⟨le_refl _, fun _ => rfl⟩
      · have hget : JsMap.get
            (JsMap.del (JsMap.set (JsMap.set s.activationOrder A (s.seq + 1)) B (s.seq + 1 + 1)) B)
            p.1 = JsMap.get s.activationOrder p.1 := by
          rw [JsMap.get_del_ne _ _ _ hpB, JsMap.get_set_ne _ _ _ _ hpB,
            JsMap.get_set_ne _ _ _ _ hpA]
        cases hgo : JsMap.get s.activationOrder p.1 with
        | none =>
          have hval : activationOf
              (⟨JsMap.del (JsMap.set (JsMap.set s.hoverCounts A (hoverCount s A + 1)) B 1) B,
                JsMap.del (JsMap.set (JsMap.set s.activationOrder A (s.seq + 1)) B (s.seq + 1 + 1)) B,
                JsMap.del (JsMap.del (JsMap.del s.previewDirection A) B) B,
                some B, s.seq + 1 + 1⟩ : PreviewState) p.1 = -1 := by
            unfold activationOf
            rw [show JsMap.get
              (JsMap.del (JsMap.set (JsMap.set s.activationOrder A (s.seq + 1)) B (s.seq + 1 + 1)) B)
              p.1 = JsMap.get s.activationOrder p.1 from hget, hgo]
            rfl
          constructor
          · rw [hval]; omega
          · intro hEq; exfalso; rw [hval] at hEq; omega
        | some n =>
          have hmem := mem_of_get_eq _ _ _ hgo
          have hn : n ≤ s.seq := hInv (p.1, n) hmem
          have hval : activationOf
              (⟨JsMap.del (JsMap.set (JsMap.set s.hoverCounts A (hoverCount s A + 1)) B 1) B,
                JsMap.del (JsMap.set (JsMap.set s.activationOrder A (s.seq + 1)) B (s.seq + 1 + 1)) B,
                JsMap.del (JsMap.del (JsMap.del s.previewDirection A) B) B,
                some B, s.seq + 1 + 1⟩ : PreviewState) p.1 = (n : Int) := by
            unfold activationOf
            rw [show JsMap.get
              (JsMap.del (JsMap.set (JsMap.set s.activationOrder A (s.seq + 1)) B (s.seq + 1 + 1)) B)
              p.1 = JsMap.get s.activationOrder p.1 from hget, hgo]
            rfl
          constructor
          · rw [hval]; omega
          · intro hEq; exfalso; rw [hval] at hEq; omega
    have hfold := pickFold_max selected
      (⟨JsMap.del (JsMap.set (JsMap.set s.hoverCounts A (hoverCount s A + 1)) B 1) B,
        JsMap.del (JsMap.set (JsMap.set s.activationOrder A (s.seq + 1)) B (s.seq + 1 + 1)) B,
        JsMap.del (JsMap.del (JsMap.del s.previewDirection A) B) B,
        some B, s.seq + 1 + 1⟩ : PreviewState) A
      (JsMap.del (JsMap.set (JsMap.set s.hoverCounts A (hoverCount s A + 1)) B 1) B)
      none (-1) hwit hselA
      (by
        intro p hp hp2 hpsel
        have := hbound p hp hp2 hpsel
        rw [hactA]
        exact this)
      (by rw [hactA]; omega)
    unfold pickNextPreviewRouteKey
    rw [hfold]
  refine ⟨?_, ?_, ?_, ?_, ?_⟩
  · intro k
    constructor
    · intro h
      unfold shouldShowSelectedRoute at h
      by_cases hsk : selected k = true
      · by_cases hlk : hasLayer k = true
        · simpa [hsk, hlk] using h
        · simp [hsk, hlk] at h
      · simp [hsk] at h
    · intro h
      subst h
      unfold shouldShowSelectedRoute
      simp [hselB, hlayB]
  · rw [hpick]; rfl
  · unfold hoverCount applyActivePreviewRoute
    simp [JsMap.get_del_ne _ _ _ hAB, JsMap.get_set_ne _ _ _ _ hAB,
      JsMap.get_set_self]
  · unfold shouldShowSelectedRoute applyActivePreviewRoute
    simp [hselA, hlayA, hpick]
  · intro sel s' k c n hmem hc hsel hact
    have hne := pickFold_ne_none_aux sel s' k c n hc hsel hact
      s'.hoverCounts (none, -1) (fun _ => rfl) hmem
    unfold pickNextPreviewRouteKey
    intro hcon
    rw [hcon] at hne
    simp at hne

/-- Witness for `preview_arbitration_precedence`: two selected routes and
an initially empty preview state; ending B's session falls back to A. -/
theorem preview_arbitration_precedence_witness :
    (endStationHoverPreview (fun k => k == "A" || k == "B")
        (startStationHoverPreview (fun k => k == "A" || k == "B")
          (startStationHoverPreview (fun k => k == "A" || k == "B")
            (⟨[], [], [], none, 0⟩ : PreviewState) "A" none) "B" none)
        "B").activeKey = some "A" :=
  (preview_arbitration_precedence (fun k => k == "A" || k == "B")
    (fun k => k == "A" || k == "B") (⟨[], [], [], none, 0⟩ : PreviewState)
    "A" "B" (by simp) (by decide) (by decide) (by decide) (by decide)
    (by decide) rfl).2.1

/-- **C8 counterexample**: the claim states the bearing delta is normalized
into the half-open interval `(-180, 180]`.  At `startBearing = 0`,
`endBearing = 180` (both in `[0, 360)`) the code's delta is `-180`, which is
outside `(-180, 180]`; consequently the interpolation at progress `1/2`
passes through `270`, not `90` as the claimed interval would give. -/
theorem bearing_delta_interval_cex :
    bearingDelta 0 180 = -180 ∧
    ¬ (-180 < bearingDelta 0 180 ∧ bearingDelta 0 180 ≤ 180) ∧
    interpolateBearing (some 0) (some 180) (1/2) = some 270 := by
  have hd : bearingDelta 0 180 = -180 := by
    unfold bearingDelta
    rw [jsMod_eval (180 - 0) 360 180 0
      (jsTrunc_eq_of_nonneg 0 (by norm_num) (by norm_num) (by norm_num))
      (by norm_num)]
    rw [show (180 + 540 : ℚ) = 720 by norm_num]
    rw [jsMod_eval 720 360 0 2
      (jsTrunc_eq_of_nonneg 2 (by norm_num) (by norm_num) (by norm_num))
      (by norm_num)]
    norm_num
  refine ⟨hd, ?_, ?_⟩
  · intro h
    rw [hd] at h
    exact absurd h.1 (lt_irrefl _)
  · show normalizeBearing (some (0 + bearingDelta 0 180 * (1/2))) = some 270
    rw [hd]
    rw [show (0 + -180 * (1/2) : ℚ) = -90 by norm_num]
    show some (jsMod (jsMod (-90) 360 + 360) 360) = some 270
    rw [jsMod_eval (-90) 360 (-90) 0
      (jsTrunc_eq_of_neg 0 (by norm_num) (by norm_num) (by norm_num))
      (by norm_num)]
    rw [show (-90 + 360 : ℚ) = 270 by norm_num]
    rw [jsMod_eval 270 360 270 0
      (jsTrunc_eq_of_nonneg 0 (by norm_num) (by norm_num) (by norm_num))
      (by norm_num)]

/-- **C8 (amended)**: for all start and end bearings in `[0, 360)`,
`interpolateBearing` normalizes the bearing delta into `[-180, 180)`
(half-open on the *right*, not the left as claimed: a 180° difference
animates as `-180`) before linearly interpolating; interpolating from 350°
to 10° at progress 0.5 yields 0° (not 180°), and the returned bearing is
always normalized into `[0, 360)`. -/
theorem bearing_interpolation_wraparound
    (s e : ℚ) (hs0 : 0 ≤ s) (hs1 : s < 360) (he0 : 0 ≤ e) (he1 : e < 360) :
    (-180 ≤ bearingDelta s e ∧ bearingDelta s e < 180) ∧
    interpolateBearing (some 350) (some 10) (1/2) = some 0 ∧
    (∀ p : ℚ, ∃ r, interpolateBearing (some s) (some e) p = some r ∧
      0 ≤ r ∧ r < 360) := by
  have hd : bearingDelta 350 10 = 20 := by
    unfold bearingDelta
    rw [jsMod_eval (10 - 350) 360 (-340) 0
      (jsTrunc_eq_of_neg 0 (by norm_num) (by norm_num) (by norm_num))
      (by norm_num)]
    rw [show (-340 + 540 : ℚ) = 200 by norm_num]
    rw [jsMod_eval 200 360 200 0
      (jsTrunc_eq_of_nonneg 0 (by norm_num) (by norm_num) (by norm_num))
      (by norm_num)]
    norm_num
  have hmid : interpolateBearing (some 350) (some 10) (1/2) = some 0 := by
    show normalizeBearing (some (350 + bearingDelta 350 10 * (1/2))) = some 0
    rw [hd]
    rw [show (350 + 20 * (1/2) : ℚ) = 360 by norm_num]
    show some (jsMod (jsMod 360 360 + 360) 360) = some 0
    rw [jsMod_eval 360 360 0 1
      (jsTrunc_eq_of_nonneg 1 (by norm_num) (by norm_num) (by norm_num))
      (by norm_num)]
    rw [show (0 + 360 : ℚ) = 360 by norm_num]
    rw [jsMod_eval 360 360 0 1
      (jsTrunc_eq_of_nonneg 1 (by norm_num) (by norm_num) (by norm_num))
      (by norm_num)]
  refine ⟨bearingDelta_mem_Ico s e, hmid, ?_⟩
  intro p
  show ∃ r, normalizeBearing (some (s + bearingDelta s e * p)) = some r ∧
    0 ≤ r ∧ r < 360
  exact normalizeBearing_mem_Ico _

/-- Witness for `bearing_interpolation_wraparound` at the claim's own
inputs 350° and 10°. -/
theorem bearing_interpolation_wraparound_witness :
    (-180 ≤ bearingDelta 350 10 ∧ bearingDelta 350 10 < 180) ∧
    interpolateBearing (some 350) (some 10) (1/2) = some 0 ∧
    (∀ p : ℚ, ∃ r, interpolateBearing (some 350) (some 10) p = some r ∧
      0 ≤ r ∧ r < 360) :=
  bearing_interpolation_wraparound 350 10 (by norm_num) (by norm_num)
    (by norm_num) (by norm_num)

/-- **C9**: `formatGtfsTime` formats the raw GTFS time `"25:05:00"`
(25 hours past midnight) as `"1:05 AM (+1)"`: the hour wraps onto a
12-hour clock and a next-day suffix carries the overflow-day count. -/
theorem overflow_time_formatting :
    formatGtfsTime "25:05:00" = "1:05 AM (+1)" := by
  decide

/-! ## Selection-set consistency lemmas -/

theorem mem_setAdd_iff (l : List String) (k x : String) :
    x ∈ setAdd l k ↔ x ∈ l ∨ x = k := by
  unfold setAdd
  by_cases h : k ∈ l
  · simp only [if_pos h]
    constructor
    · exact Or.inl
    · rintro (hx | rfl)
      · exact hx
      · exact h
  · simp [h, List.mem_append]

theorem mem_setRemove_iff (l : List String) (k x : String) :
    x ∈ setRemove l k ↔ x ∈ l ∧ x ≠ k := by
  unfold setRemove
  simp [List.mem_filter]

theorem applySelectionStep_preserves (knownKeys : String → Bool)
    (st : SelectionState) (ev : SelectionStep)
    (h : SelectionConsistent st) :
    SelectionConsistent (applySelectionStep knownKeys st ev) := by
  cases ev with
  | selectBegin k =>
    unfold applySelectionStep
    by_cases hk : knownKeys k = true
    · simp only [if_pos hk]
      intro x
      rw [mem_setAdd_iff]
      unfold flagUpdate
      by_cases hx : x = k
      · simp [hx]
      · simp [hx, h x]
    · simp only [if_neg hk]
      exact h
  | loadResolveOk k =>
    exact h
  | loadResolveErr k =>
    unfold applySelectionStep
    by_cases hk : knownKeys k = true
    · simp only [if_pos hk]
      intro x
      rw [mem_setRemove_iff]
      unfold flagUpdate
      by_cases hx : x = k
      · simp [hx]
      · simp [hx, h x]
    · simp only [if_neg hk]
      exact h
  | deselect k =>
    unfold applySelectionStep
    by_cases hk : knownKeys k = true
    · simp only [if_pos hk]
      intro x
      rw [mem_setRemove_iff]
      unfold flagUpdate
      by_cases hx : x = k
      · simp [hx]
      · simp [hx, h x]
    · simp only [if_neg hk]
      exact h

/-- **C2** (selection set consistency): for every initial state satisfying
the invariant and every sequence of atomic blocks of `setRouteSelection` /
`setRouteKeysSelected` calls — i.e. any interleaving of any number of
concurrent calls at every suspension point — a route key is a member of
`selectedRouteKeys` iff the corresponding `RouteState.selected` flag is
true. -/
theorem selection_set_consistency
    (knownKeys : String → Bool) (init : SelectionState)
    (steps : List SelectionStep) (hinit : SelectionConsistent init) :
    SelectionConsistent
      (steps.foldl (applySelectionStep knownKeys) init) := by
  induction steps generalizing init with
  | nil => exact hinit
  | cons ev t ih =>
    rw [List.foldl_cons]
    exact ih _ (applySelectionStep_preserves knownKeys init ev hinit)

/-- Witness for `selection_set_consistency`: a concrete interleaving of two
overlapping select calls (one failing), a deselect and a successful load,
starting from the empty session. -/
theorem selection_set_consistency_witness :
    SelectionConsistent
      (([SelectionStep.selectBegin "njt:1", SelectionStep.deselect "njt:1",
         SelectionStep.selectBegin "njt:2",
         SelectionStep.loadResolveErr "njt:2",
         SelectionStep.selectBegin "njt:3",
         SelectionStep.loadResolveOk "njt:3"] :
        List SelectionStep).foldl
        (applySelectionStep (fun _ => true))
        ⟨fun _ => false, []⟩) :=
  selection_set_consistency (fun _ => true) ⟨fun _ => false, []⟩ _
    (fun k => by simp)

/-! ## Single-flight load lemmas -/

theorem geoLoadInit_inv (n : Nat) : GeoLoadInv (geoLoadInit n) := by
  refine ⟨by simp [geoLoadInit], by simp [geoLoadInit],
    by simp [geoLoadInit], by simp [geoLoadInit], ?_⟩
  intro obs hobs
  have := List.eq_of_mem_replicate hobs
  exact absurd this (by simp)

theorem applyGeoLoadEvent_preserves (st : GeoLoadState) (ev : LoadEvent)
    (h : GeoLoadInv st) : GeoLoadInv (applyGeoLoadEvent st ev) := by
  obtain ⟨h1, h2, h3, h4, h5⟩ := h
  cases ev with
  | enter i =>
    simp only [applyGeoLoadEvent]
    cases hgi : st.callers.get? i with
    | none => exact ⟨h1, h2, h3, h4, h5⟩
    | some c =>
      cases c with
      | waiting => exact ⟨h1, h2, h3, h4, h5⟩
      | doneOk o => exact ⟨h1, h2, h3, h4, h5⟩
      | doneErr => exact ⟨h1, h2, h3, h4, h5⟩
      | idle =>
        by_cases hl : st.layer = true
        · simp only [if_pos hl]
          refine ⟨h1, h2, h3, h4, ?_⟩
          intro obs hobs
          rcases List.mem_or_eq_of_mem_set hobs with hmem | heq
          · exact h5 obs hmem
          · injection heq with h'
            exact ⟨h', by rw [h']; exact h4 hl⟩
        · by_cases hrd : st.routeData.isSome = true
          · simp only [if_neg hl, if_pos hrd]
            refine ⟨h1, h2, h3, fun _ => hrd, ?_⟩
            intro obs hobs
            rcases List.mem_or_eq_of_mem_set hobs with hmem | heq
            · exact h5 obs hmem
            · injection heq with h'
              exact ⟨h', by rw [h']; exact hrd⟩
          · by_cases hp : st.loadPromise = true
            · simp only [if_neg hl, if_neg hrd, if_pos hp]
              refine ⟨h1, h2, h3, h4, ?_⟩
              intro obs hobs
              rcases List.mem_or_eq_of_mem_set hobs with hmem | heq
              · exact h5 obs hmem
              · exact absurd heq (by simp)
            · simp only [if_neg hl, if_neg hrd, if_neg hp]
              have hpend : st.pendingFetches = 0 := by
                by_contra hne
                exact hp (h2 (Nat.pos_of_ne_zero hne))
              refine ⟨by dsimp only; omega, fun _ => rfl, ?_, ?_, ?_⟩
              · intro _
                exact Option.not_isSome_iff_eq_none.1
                  (fun hs => hrd hs)
              · intro hly
                exact absurd hly hl
              · intro obs hobs
                rcases List.mem_or_eq_of_mem_set hobs with hmem | heq
                · exact h5 obs hmem
                · exact absurd heq (by simp)
  | resolveOk d =>
    simp only [applyGeoLoadEvent]
    by_cases hpos : 0 < st.pendingFetches
    · simp only [if_pos hpos]
      have hpr := h2 hpos
      have hrd := h3 hpr
      refine ⟨by dsimp only; omega,
        by dsimp only; intro h'; exact absurd h' (by omega),
        by simp, by simp, ?_⟩
      intro obs hobs
      rcases List.mem_map.1 hobs with ⟨a, ha, hfa⟩
      by_cases hw : a = .waiting
      · rw [hw, if_pos rfl] at hfa
        injection hfa with h'
        exact ⟨h'.symm ▸ rfl, h'.symm ▸ rfl⟩
      · rw [if_neg hw] at hfa
        obtain ⟨hobs1, hobs2⟩ := h5 obs (hfa ▸ ha)
        rw [hrd] at hobs1
        rw [hobs1] at hobs2
        simp at hobs2
    · simp only [if_neg hpos]
      exact ⟨h1, h2, h3, h4, h5⟩
  | resolveErr =>
    simp only [applyGeoLoadEvent]
    by_cases hpos : 0 < st.pendingFetches
    · simp only [if_pos hpos]
      refine ⟨by dsimp only; omega,
        by dsimp only; intro h'; exact absurd h' (by omega),
        by simp, h4, ?_⟩
      intro obs hobs
      rcases List.mem_map.1 hobs with ⟨a, ha, hfa⟩
      by_cases hw : a = .waiting
      · rw [hw, if_pos rfl] at hfa
        exact absurd hfa (by simp)
      · rw [if_neg hw] at hfa
        exact h5 obs (hfa ▸ ha)
    · simp only [if_neg hpos]
      exact ⟨h1, h2, h3, h4, h5⟩

theorem runGeoLoad_inv (n : Nat) (evs : List LoadEvent) :
    GeoLoadInv (runGeoLoad n evs) := by
  unfold runGeoLoad
  have haux : ∀ (l : List LoadEvent) (st : GeoLoadState), GeoLoadInv st →
      GeoLoadInv (l.foldl applyGeoLoadEvent st) := by
    intro l
    induction l with
    | nil => intro st h; exact h
    | cons e t ih =>
      intro st h
      rw [List.foldl_cons]
      exact ih _ (applyGeoLoadEvent_preserves st e h)
  exact haux evs _ (geoLoadInit_inv n)

theorem schedLoadInit_inv (hasInline : Bool) (scheduleFile : Option String)
    (n : Nat) : SchedLoadInv hasInline scheduleFile (schedLoadInit n) := by
  refine ⟨by simp [schedLoadInit], by simp [schedLoadInit],
    by simp [schedLoadInit], by simp [schedLoadInit],
    by simp [schedLoadInit], ?_, ?_⟩
  · intro obs hobs
    have := List.eq_of_mem_replicate hobs
    exact absurd this (by simp)
  · intro _ _ obs hobs
    have := List.eq_of_mem_replicate hobs
    exact absurd this (by simp)

theorem applySchedLoadEvent_preserves (hasInline : Bool)
    (scheduleFile : Option String) (st : SchedLoadState) (ev : LoadEvent)
    (h : SchedLoadInv hasInline scheduleFile st) :
    SchedLoadInv hasInline scheduleFile
      (applySchedLoadEvent hasInline scheduleFile st ev) := by
  obtain ⟨h1, h2, h3, h4, h5, h6, h7⟩ := h
  cases ev with
  | enter i =>
    simp only [applySchedLoadEvent]
    cases hgi : st.callers.get? i with
    | none => exact ⟨h1, h2, h3, h4, h5, h6, h7⟩
    | some c =>
      cases c with
      | waiting => exact ⟨h1, h2, h3, h4, h5, h6, h7⟩
      | doneOk o => exact ⟨h1, h2, h3, h4, h5, h6, h7⟩
      | doneErr => exact ⟨h1, h2, h3, h4, h5, h6, h7⟩
      | idle =>
        by_cases hin : hasInline = true
        · simp only [if_pos hin]
          refine ⟨h1, h2, h3, h4, h5, ?_, ?_⟩
          · intro obs hobs
            rcases List.mem_or_eq_of_mem_set hobs with hmem | heq
            · exact h6 obs hmem
            · injection heq with h'
              rw [h', h4 hin]
          · intro hif
            rw [hif] at hin
            simp at hin
        · by_cases hsd : st.scheduleData.isSome = true
          · simp only [if_neg hin, if_pos hsd]
            refine ⟨h1, h2, h3, h4, h5, ?_, ?_⟩
            · intro obs hobs
              rcases List.mem_or_eq_of_mem_set hobs with hmem | heq
              · exact h6 obs hmem
              · injection heq
            · intro hif hf obs hobs
              rcases List.mem_or_eq_of_mem_set hobs with hmem | heq
              · exact h7 hif hf obs hmem
              · injection heq with h'
                rw [h']
                exact hsd
          · by_cases hfn : scheduleFile.isSome = false
            · simp only [if_neg hin, if_neg hsd, if_pos hfn]
              refine ⟨h1, h2, h3, h4, h5, ?_, ?_⟩
              · intro obs hobs
                rcases List.mem_or_eq_of_mem_set hobs with hmem | heq
                · exact h6 obs hmem
                · injection heq with h'
                  rw [h', h5 hfn]
              · intro _ hf
                rw [hf] at hfn
                simp at hfn
            · by_cases hp : st.scheduleLoadPromise = true
              · simp only [if_neg hin, if_neg hsd, if_neg hfn, if_pos hp]
                refine ⟨h1, h2, h3, h4, h5, ?_, ?_⟩
                · intro obs hobs
                  rcases List.mem_or_eq_of_mem_set hobs with hmem | heq
                  · exact h6 obs hmem
                  · exact absurd heq (by simp)
                · intro hif hf obs hobs
                  rcases List.mem_or_eq_of_mem_set hobs with hmem | heq
                  · exact h7 hif hf obs hmem
                  · exact absurd heq (by simp)
              · simp only [if_neg hin, if_neg hsd, if_neg hfn, if_neg hp]
                have hin' : hasInline = false := by simpa using hin
                have hfile : scheduleFile.isSome = true := by
                  cases hfs : scheduleFile.isSome with
                  | false => exact absurd hfs hfn
                  | true => rfl
                have hpend : st.pendingFetches = 0 := by
                  by_contra hne
                  exact hp (h2 (Nat.pos_of_ne_zero hne))
                refine ⟨by dsimp only; omega, fun _ => rfl, ?_, h4, h5,
                  ?_, ?_⟩
                · intro _
                  exact ⟨Option.not_isSome_iff_eq_none.1 (fun hs => hsd hs),
                    hin', hfile⟩
                · intro obs hobs
                  rcases List.mem_or_eq_of_mem_set hobs with hmem | heq
                  · exact h6 obs hmem
                  · exact absurd heq (by simp)
                · intro hif hf obs hobs
                  rcases List.mem_or_eq_of_mem_set hobs with hmem | heq
                  · exact h7 hif hf obs hmem
                  · exact absurd heq (by simp)
  | resolveOk d =>
    simp only [applySchedLoadEvent]
    by_cases hpos : 0 < st.pendingFetches
    · simp only [if_pos hpos]
      obtain ⟨hdn, hin', hfile⟩ := h3 (h2 hpos)
      refine ⟨by dsimp only; omega,
        by dsimp only; intro h'; exact absurd h' (by omega),
        by simp, fun h' => absurd h' (by simp [hin']),
        fun h' => absurd hfile (by simp [h']), ?_, ?_⟩
      · intro obs hobs
        rcases List.mem_map.1 hobs with ⟨a, ha, hfa⟩
        by_cases hw : a = .waiting
        · rw [hw, if_pos rfl] at hfa
          injection hfa with h'
          exact h'.symm
        · rw [if_neg hw] at hfa
          have hobs1 := h6 obs (hfa ▸ ha)
          have hobs2 := h7 hin' hfile obs (hfa ▸ ha)
          rw [hdn] at hobs1
          rw [hobs1] at hobs2
          simp at hobs2
      · intro _ _ obs hobs
        rcases List.mem_map.1 hobs with ⟨a, ha, hfa⟩
        by_cases hw : a = .waiting
        · rw [hw, if_pos rfl] at hfa
          injection hfa with h'
          rw [← h']
          rfl
        · rw [if_neg hw] at hfa
          exact h7 hin' hfile obs (hfa ▸ ha)
    · simp only [if_neg hpos]
      exact ⟨h1, h2, h3, h4, h5, h6, h7⟩
  | resolveErr =>
    simp only [applySchedLoadEvent]
    by_cases hpos : 0 < st.pendingFetches
    · simp only [if_pos hpos]
      refine ⟨by dsimp only; omega,
        by dsimp only; intro h'; exact absurd h' (by omega),
        by simp, h4, h5, ?_, ?_⟩
      · intro obs hobs
        rcases List.mem_map.1 hobs with ⟨a, ha, hfa⟩
        by_cases hw : a = .waiting
        · rw [hw, if_pos rfl] at hfa
          exact absurd hfa (by simp)
        · rw [if_neg hw] at hfa
          exact h6 obs (hfa ▸ ha)
      · intro hif hf obs hobs
        rcases List.mem_map.1 hobs with ⟨a, ha, hfa⟩
        by_cases hw : a = .waiting
        · rw [hw, if_pos rfl] at hfa
          exact absurd hfa (by simp)
        · rw [if_neg hw] at hfa
          exact h7 hif hf obs (hfa ▸ ha)
    · simp only [if_neg hpos]
      exact ⟨h1, h2, h3, h4, h5, h6, h7⟩

theorem runSchedLoad_inv (hasInline : Bool) (scheduleFile : Option String)
    (n : Nat) (evs : List LoadEvent) :
    SchedLoadInv hasInline scheduleFile
      (runSchedLoad hasInline scheduleFile n evs) := by
  unfold runSchedLoad
  have haux : ∀ (l : List LoadEvent) (st : SchedLoadState),
      SchedLoadInv hasInline scheduleFile st →
      SchedLoadInv hasInline scheduleFile
        (l.foldl (applySchedLoadEvent hasInline scheduleFile) st) := by
    intro l
    induction l with
    | nil => intro st h; exact h
    | cons e t ih =>
      intro st h
      rw [List.foldl_cons]
      exact ih _ (applySchedLoadEvent_preserves hasInline scheduleFile st e h)
  exact haux evs _ (schedLoadInit_inv hasInline scheduleFile n)

/-- **C3** (single-flight loading): over every interleaving of concurrent
`ensureRouteLoaded` (resp. `ensureRouteScheduleLoaded`) callers for one
route, at most one geometry fetch and at most one schedule fetch is in
flight at any time; a caller entering while a load is in flight awaits the
stored in-flight promise and issues no duplicate network fetch; and any
two callers that completed with loaded data observed the same data. -/
theorem single_flight_loading (n : Nat) (evs : List LoadEvent)
    (hasInline : Bool) (scheduleFile : Option String)
    (m : Nat) (evs' : List LoadEvent) :
    ((runGeoLoad n evs).pendingFetches ≤ 1 ∧
      (∀ obs1 obs2,
        LoadCallerPhase.doneOk obs1 ∈ (runGeoLoad n evs).callers →
        LoadCallerPhase.doneOk obs2 ∈ (runGeoLoad n evs).callers →
        obs1 = obs2) ∧
      ((runGeoLoad n evs).loadPromise = true → ∀ i,
        (runGeoLoad n evs).callers.get? i = some .idle →
        (applyGeoLoadEvent (runGeoLoad n evs) (.enter i)).fetchStarts =
          (runGeoLoad n evs).fetchStarts ∧
        (applyGeoLoadEvent (runGeoLoad n evs) (.enter i)).callers =
          (runGeoLoad n evs).callers.set i .waiting)) ∧
    ((runSchedLoad hasInline scheduleFile m evs').pendingFetches ≤ 1 ∧
      (∀ obs1 obs2,
        LoadCallerPhase.doneOk obs1 ∈
          (runSchedLoad hasInline scheduleFile m evs').callers →
        LoadCallerPhase.doneOk obs2 ∈
          (runSchedLoad hasInline scheduleFile m evs').callers →
        obs1 = obs2) ∧
      ((runSchedLoad hasInline scheduleFile m evs').scheduleLoadPromise
          = true → ∀ i,
        (runSchedLoad hasInline scheduleFile m evs').callers.get? i
          = some .idle →
        (applySchedLoadEvent hasInline scheduleFile
          (runSchedLoad hasInline scheduleFile m evs')
          (.enter i)).fetchStarts =
          (runSchedLoad hasInline scheduleFile m evs').fetchStarts ∧
        (applySchedLoadEvent hasInline scheduleFile
          (runSchedLoad hasInline scheduleFile m evs')
          (.enter i)).callers =
          (runSchedLoad hasInline scheduleFile m evs').callers.set i
            .waiting)) := by
  obtain ⟨g1, g2, g3, g4, g5⟩ := runGeoLoad_inv n evs
  obtain ⟨s1, s2, s3, s4, s5, s6, s7⟩ :=
    runSchedLoad_inv hasInline scheduleFile m evs'
  refine ⟨⟨g1, ?_, ?_⟩, ⟨s1, ?_, ?_⟩⟩
  · intro obs1 obs2 ho1 ho2
    rw [(g5 obs1 ho1).1, (g5 obs2 ho2).1]
  · intro hpr i hgi
    have hrd := g3 hpr
    have hnd : ¬ (runGeoLoad n evs).routeData.isSome = true := by
      rw [hrd]; simp
    have hl : ¬ (runGeoLoad n evs).layer = true := by
      intro hly
      exact hnd (g4 hly)
    refine ⟨?_, ?_⟩ <;>
      simp only [applyGeoLoadEvent, hgi, if_neg hl, if_neg hnd, if_pos hpr]
  · intro obs1 obs2 ho1 ho2
    rw [s6 obs1 ho1, s6 obs2 ho2]
  · intro hpr i hgi
    obtain ⟨hdn, hin, hfile⟩ := s3 hpr
    have hnd : ¬ (runSchedLoad hasInline scheduleFile m
        evs').scheduleData.isSome = true := by
      rw [hdn]; simp
    have hni : ¬ hasInline = true := by simp [hin]
    have hnf : ¬ (scheduleFile.isSome = false) := by simp [hfile]
    refine ⟨?_, ?_⟩ <;>
      simp only [applySchedLoadEvent, hgi, if_neg hni, if_neg hnd,
        if_neg hnf, if_pos hpr]

/-- Witness for `single_flight_loading`: two concurrent callers on a fresh
route; the second enters while the first caller's fetch is in flight; one
fetch total, both callers observe the same payload. -/
theorem single_flight_loading_witness :
    (runGeoLoad 2 [LoadEvent.enter 0, LoadEvent.enter 1,
      LoadEvent.resolveOk 7]).pendingFetches ≤ 1 ∧
    (runGeoLoad 2 [LoadEvent.enter 0, LoadEvent.enter 1,
      LoadEvent.resolveOk 7]).fetchStarts = 1 ∧
    (runGeoLoad 2 [LoadEvent.enter 0, LoadEvent.enter 1,
      LoadEvent.resolveOk 7]).callers =
      [LoadCallerPhase.doneOk (some 7), LoadCallerPhase.doneOk (some 7)] :=
  ⟨(single_flight_loading 2
      [LoadEvent.enter 0, LoadEvent.enter 1, LoadEvent.resolveOk 7]
      false (some "schedules/njt-1.json") 2
      [LoadEvent.enter 0, LoadEvent.enter 1,
        LoadEvent.resolveOk 7]).1.1,
    by rfl, by rfl⟩

/-! ## Popup token lemmas -/

/-- **C6** (stale popup content discard): an asynchronously resolved
content (or error) result is applied only if its captured token still
equals the latest token and the popup is still open; in particular, after
opening a popup and re-opening it before the first request resolves, the
first request's resolution is a silent no-op and the popup still shows the
second request's state, while a resolution carrying the current token on
the open popup does apply. -/
theorem stale_popup_content_discard (s0 : PopupState)
    (html1 html2 : String) :
    (∀ (s : PopupState) (t : Nat) (h : String),
      t ≠ s.popupRequestToken → resolvePopupContent s t h = s) ∧
    (∀ (s : PopupState) (t : Nat) (h : String),
      s.isOpen = false → resolvePopupContent s t h = s) ∧
    (∀ (s : PopupState) (t : Nat),
      t ≠ s.popupRequestToken → rejectPopupContent s t = s) ∧
    (∀ (s : PopupState) (t : Nat),
      s.isOpen = false → rejectPopupContent s t = s) ∧
    resolvePopupContent (openPopup (openPopup s0).1).1 (openPopup s0).2
        html1 = (openPopup (openPopup s0).1).1 ∧
    (openPopup (openPopup s0).1).1.content = PopupContent.loading ∧
    resolvePopupContent (openPopup (openPopup s0).1).1
        (openPopup (openPopup s0).1).2 html2 =
      { (openPopup (openPopup s0).1).1 with
          content := PopupContent.content html2 } := by
  refine ⟨?_, ?_, ?_, ?_, ?_, ?_, ?_⟩
  · intro s t h ht
    simp [resolvePopupContent, ht]
  · intro s t h hop
    unfold resolvePopupContent
    by_cases ht : t ≠ s.popupRequestToken
    · simp [ht]
    · simp [ht, hop]
  · intro s t ht
    simp [rejectPopupContent, ht]
  · intro s t hop
    unfold rejectPopupContent
    by_cases ht : t ≠ s.popupRequestToken
    · simp [ht]
    · simp [ht, hop]
  · have hne : (openPopup s0).2 ≠
        (openPopup (openPopup s0).1).1.popupRequestToken := by
      simp only [openPopup]
      omega
    simp [resolvePopupContent, hne]
  · simp [openPopup]
  · simp [resolvePopupContent, openPopup]

/-- Witness for `stale_popup_content_discard`: open, re-open, then the
first request resolves — its content is discarded, the loading placeholder
of the second open stays. -/
theorem stale_popup_content_discard_witness :
    resolvePopupContent
        (openPopup (openPopup
          (⟨0, false, PopupContent.loading⟩ : PopupState)).1).1
        (openPopup (⟨0, false, PopupContent.loading⟩ : PopupState)).2
        "first" =
      (openPopup (openPopup
        (⟨0, false, PopupContent.loading⟩ : PopupState)).1).1 ∧
    (openPopup (openPopup
        (⟨0, false, PopupContent.loading⟩ : PopupState)).1).1.content =
      PopupContent.loading :=
  ⟨(stale_popup_content_discard ⟨0, false, PopupContent.loading⟩
      "first" "second").2.2.2.2.1,
   (stale_popup_content_discard ⟨0, false, PopupContent.loading⟩
      "first" "second").2.2.2.2.2.1⟩

/-! ## Failed selection lemmas -/

/-- **C7** (failed selection atomicity): when `setRouteSelection(key,
true)` runs against a route with no cached layer or geometry and the load
fails, the call reverts `selected` to false, removes the key from
`selectedRouteKeys`, surfaces a status message containing the route's
short name and the error message, caches nothing (`routeData` and `layer`
stay unset after exactly one fetch attempt — no automatic retry), and a
later call for the same key attempts the load again (a second fetch) and
can succeed.  `setRouteSelectionTrue` is total: the catch swallows the
failure, so nothing is thrown to the caller. -/
theorem failed_selection_atomicity (st : RouteSelState) (e : String)
    (d : Nat) (hlayer : st.layer = false) (hdata : st.routeData = none) :
    (setRouteSelectionTrue st (Except.error e)).selected = false ∧
    (setRouteSelectionTrue st (Except.error e)).inSelectedKeys = false ∧
    (setRouteSelectionTrue st (Except.error e)).statusMessage =
      some ("Failed to load route " ++ st.shortName ++ ": " ++ e) ∧
    (∃ a b, "Failed to load route " ++ st.shortName ++ ": " ++ e =
      a ++ st.shortName ++ b) ∧
    (∃ a b, "Failed to load route " ++ st.shortName ++ ": " ++ e =
      a ++ e ++ b) ∧
    (setRouteSelectionTrue st (Except.error e)).fetchCount =
      st.fetchCount + 1 ∧
    (setRouteSelectionTrue st (Except.error e)).routeData = none ∧
    (setRouteSelectionTrue st (Except.error e)).layer = false ∧
    (setRouteSelectionTrue (setRouteSelectionTrue st (Except.error e))
      (Except.ok d)).fetchCount = st.fetchCount + 2 ∧
    (setRouteSelectionTrue (setRouteSelectionTrue st (Except.error e))
      (Except.ok d)).selected = true ∧
    (setRouteSelectionTrue (setRouteSelectionTrue st (Except.error e))
      (Except.ok d)).inSelectedKeys = true ∧
    (setRouteSelectionTrue (setRouteSelectionTrue st (Except.error e))
      (Except.ok d)).routeData = some d := by
  refine ⟨?_, ?_, ?_, ?_, ?_, ?_, ?_, ?_, ?_, ?_, ?_, ?_⟩
  · simp [setRouteSelectionTrue, hlayer, hdata]
  · simp [setRouteSelectionTrue, hlayer, hdata]
  · simp [setRouteSelectionTrue, hlayer, hdata]
  · exact ⟨"Failed to load route ", ": " ++ e, by rw [String.append_assoc]⟩
  · exact ⟨"Failed to load route " ++ st.shortName ++ ": ", "",
      by rw [String.append_empty]⟩
  · simp [setRouteSelectionTrue, hlayer, hdata]
  · simp [setRouteSelectionTrue, hlayer, hdata]
  · simp [setRouteSelectionTrue, hlayer, hdata]
  · simp [setRouteSelectionTrue, hlayer, hdata]
  · simp [setRouteSelectionTrue, hlayer, hdata]
  · simp [setRouteSelectionTrue, hlayer, hdata]
  · simp [setRouteSelectionTrue, hlayer, hdata]

/-- Witness for `failed_selection_atomicity` on a fresh route "62" whose
geometry fetch returns HTTP 404, followed by a successful reissue. -/
theorem failed_selection_atomicity_witness :
    (setRouteSelectionTrue ⟨false, false, none, false, "62", 0, none⟩
      (Except.error "HTTP 404")).selected = false ∧
    (setRouteSelectionTrue ⟨false, false, none, false, "62", 0, none⟩
      (Except.error "HTTP 404")).statusMessage =
      some "Failed to load route 62: HTTP 404" ∧
    (setRouteSelectionTrue
      (setRouteSelectionTrue ⟨false, false, none, false, "62", 0, none⟩
        (Except.error "HTTP 404")) (Except.ok 5)).routeData = some 5 :=
  ⟨(failed_selection_atomicity ⟨false, false, none, false, "62", 0, none⟩
      "HTTP 404" 5 rfl rfl).1,
   by
    rw [(failed_selection_atomicity
      (⟨false, false, none, false, "62", 0, none⟩ : RouteSelState)
      "HTTP 404" 5 rfl rfl).2.2.1]
    rfl,
   (failed_selection_atomicity ⟨false, false, none, false, "62", 0, none⟩
      "HTTP 404" 5 rfl rfl).2.2.2.2.2.2.2.2.2.2.2⟩

/-! ## Live-vehicle sync lemmas -/

namespace JsMap

variable {κ α : Type} [DecidableEq κ]

theorem isSome_get_of_mem {m : List (κ × α)} {p : κ × α} (hp : p ∈ m) :
    (get m p.1).isSome = true := by
  induction m with
  | nil => simp at hp
  | cons q t ih =>
    by_cases hq : q.1 = p.1
    · simp [get, hq]
    · rcases List.mem_cons.1 hp with rfl | h
      · exact absurd rfl hq
      · simpa [get, hq] using ih h

theorem contains_set (m : List (κ × α)) (k k' : κ) (v : α) :
    contains (set m k v) k' = true ↔ k' = k ∨ contains m k' = true := by
  by_cases h : k' = k
  · subst h
    simp [contains, get_set_self]
  · rw [contains, get_set_ne m k k' v h]
    simp [contains, h]

theorem contains_iff_exists (m : List (κ × α)) (k : κ) :
    contains m k = true ↔ ∃ v, (k, v) ∈ m := by
  constructor
  · intro h
    unfold contains at h
    cases hg : get m k with
    | none => rw [hg] at h; simp at h
    | some v => exact ⟨v, mem_of_get_eq m k v hg⟩
  · rintro ⟨v, hv⟩
    exact isSome_get_of_mem hv

theorem contains_foldl_set (l : List (κ × α)) :
    ∀ (acc : List (κ × α)) (k : κ),
      contains (l.foldl (fun m p => set m p.1 p.2) acc) k = true ↔
      contains acc k = true ∨ ∃ p ∈ l, p.1 = k := by
  induction l with
  | nil => intro acc k; simp
  | cons q t ih =>
    intro acc k
    rw [List.foldl_cons, ih (set acc q.1 q.2) k, contains_set]
    constructor
    · rintro ((hk | hacc) | ⟨p, hp, hpk⟩)
      · exact Or.inr ⟨q, List.mem_cons_self _ _, hk.symm⟩
      · exact Or.inl hacc
      · exact Or.inr ⟨p, List.mem_cons_of_mem _ hp, hpk⟩
    · rintro (hacc | ⟨p, hp, hpk⟩)
      · exact Or.inl (Or.inr hacc)
      · rcases List.mem_cons.1 hp with rfl | hpt
        · exact Or.inl (Or.inl hpk.symm)
        · exact Or.inr ⟨p, hpt, hpk⟩

end JsMap

theorem contains_vehicles_fold (selectedRouteKeys : List String)
    (l : List LiveVehicle) :
    ∀ (acc : List (String × LiveVehicle)) (k : String),
      JsMap.contains (l.foldl (fun m v =>
        if v.routeKey ∈ selectedRouteKeys then JsMap.set m v.id v else m)
        acc) k = true ↔
      JsMap.contains acc k = true ∨
        ∃ v ∈ l, v.id = k ∧ v.routeKey ∈ selectedRouteKeys := by
  induction l with
  | nil => intro acc k; simp
  | cons w t ih =>
    intro acc k
    rw [List.foldl_cons]
    by_cases hw : w.routeKey ∈ selectedRouteKeys
    · rw [if_pos hw, ih (JsMap.set acc w.id w) k, JsMap.contains_set]
      constructor
      · rintro ((hk | hacc) | ⟨v, hv, hvk, hvs⟩)
        · exact Or.inr ⟨w, List.mem_cons_self _ _, hk.symm, hw⟩
        · exact Or.inl hacc
        · exact Or.inr ⟨v, List.mem_cons_of_mem _ hv, hvk, hvs⟩
      · rintro (hacc | ⟨v, hv, hvk, hvs⟩)
        · exact Or.inl (Or.inr hacc)
        · rcases List.mem_cons.1 hv with rfl | hvt
          · exact Or.inl (Or.inl hvk.symm)
          · exact Or.inr ⟨v, hvt, hvk, hvs⟩
    · rw [if_neg hw, ih acc k]
      constructor
      · rintro (hacc | ⟨v, hv, hvk, hvs⟩)
        · exact Or.inl hacc
        · exact Or.inr ⟨v, List.mem_cons_of_mem _ hv, hvk, hvs⟩
      · rintro (hacc | ⟨v, hv, hvk, hvs⟩)
        · exact Or.inl hacc
        · rcases List.mem_cons.1 hv with rfl | hvt
          · exact absurd hvs hw
          · exact Or.inr ⟨v, hvt, hvk, hvs⟩

/-- **C10** (rendered live vehicles confined to selected realtime routes):
after `syncVehicleLayers` applies a poll response, the rendered marker map
has an entry for a vehicle id exactly when the response contains a vehicle
with that id whose route key is in the selected set — vehicles of
unselected routes are never rendered, and previously rendered vehicles
absent from the filtered response are removed. -/
theorem live_vehicles_confined (selectedRouteKeys : List String)
    (layers : List (String × LiveVehicle)) (vehicles : List LiveVehicle)
    (vid : String) :
    JsMap.contains (syncVehicleLayers selectedRouteKeys layers vehicles)
        vid = true ↔
      ∃ v ∈ vehicles, v.id = vid ∧
        v.routeKey ∈ selectedRouteKeys := by
  unfold syncVehicleLayers
  have hmain : ∀ (N kept : List (String × LiveVehicle)),
      (∀ k, JsMap.contains N k = true ↔
        ∃ v ∈ vehicles, v.id = k ∧ v.routeKey ∈ selectedRouteKeys) →
      (∀ p ∈ kept, JsMap.contains N p.1 = true) →
      (JsMap.contains
          (N.foldl (fun m p => JsMap.set m p.1 p.2) kept) vid = true ↔
        ∃ v ∈ vehicles, v.id = vid ∧
          v.routeKey ∈ selectedRouteKeys) := by
    intro N kept hN hkeptN
    rw [JsMap.contains_foldl_set]
    constructor
    · rintro (hk | ⟨p, hp, hpk⟩)
      · rcases (JsMap.contains_iff_exists kept vid).1 hk with ⟨v, hv⟩
        exact (hN vid).1 (hkeptN (vid, v) hv)
      · rcases p with ⟨pk, pv⟩
        cases hpk
        exact (hN pk).1 ((JsMap.contains_iff_exists N pk).2 ⟨pv, hp⟩)
    · intro hex
      rcases (JsMap.contains_iff_exists N vid).1 ((hN vid).2 hex)
        with ⟨v, hv⟩
      exact Or.inr ⟨(vid, v), hv, rfl⟩
  exact hmain _ _
    (fun k => by
      rw [contains_vehicles_fold selectedRouteKeys vehicles [] k]
      simp [JsMap.contains, JsMap.get])
    (fun p hp => (List.mem_filter.1 hp).2)

/-- Witness for `live_vehicles_confined`: a poll response with one vehicle
on a selected route and one on an unselected route, with a stale rendered
marker to remove. -/
theorem live_vehicles_confined_witness :
    (JsMap.contains (syncVehicleLayers ["njt:62"]
        [("stale", ⟨"stale", "njt:62", 0, 0, none⟩)]
        [⟨"bus1", "njt:62", 40, -74, some 90⟩,
         ⟨"bus2", "njt:1", 40, -74, none⟩]) "bus1" = true ↔
      ∃ v ∈ [(⟨"bus1", "njt:62", 40, -74, some 90⟩ : LiveVehicle),
             ⟨"bus2", "njt:1", 40, -74, none⟩], v.id = "bus1" ∧
        v.routeKey ∈ ["njt:62"]) ∧
    (JsMap.contains (syncVehicleLayers ["njt:62"]
        [("stale", ⟨"stale", "njt:62", 0, 0, none⟩)]
        [⟨"bus1", "njt:62", 40, -74, some 90⟩,
         ⟨"bus2", "njt:1", 40, -74, none⟩]) "bus2" = true ↔
      ∃ v ∈ [(⟨"bus1", "njt:62", 40, -74, some 90⟩ : LiveVehicle),
             ⟨"bus2", "njt:1", 40, -74, none⟩], v.id = "bus2" ∧
        v.routeKey ∈ ["njt:62"]) :=
  ⟨live_vehicles_confined ["njt:62"]
      [("stale", ⟨"stale", "njt:62", 0, 0, none⟩)]
      [⟨"bus1", "njt:62", 40, -74, some 90⟩,
       ⟨"bus2", "njt:1", 40, -74, none⟩] "bus1",
   live_vehicles_confined ["njt:62"]
      [("stale", ⟨"stale", "njt:62", 0, 0, none⟩)]
      [⟨"bus1", "njt:62", 40, -74, some 90⟩,
       ⟨"bus2", "njt:1", 40, -74, none⟩] "bus2"⟩

/-! ## Stop clustering lemmas -/

theorem findMatchStep_bound (clusters : List StopClusterBuildState)
    (px py maxD : ℚ) :
    ∀ (l : List Nat) (acc : Option Nat × ℚ),
      acc.2 ≤ maxD →
      (∀ j, acc.1 = some j → ∃ c, clusters.get? j = some c ∧
        (px - c.anchorX) * (px - c.anchorX) +
        (py - c.anchorY) * (py - c.anchorY) = acc.2) →
      (l.foldl (findMatchStep clusters px py) acc).2 ≤ maxD ∧
      (∀ j, (l.foldl (findMatchStep clusters px py) acc).1 = some j →
        ∃ c, clusters.get? j = some c ∧
          (px - c.anchorX) * (px - c.anchorX) +
          (py - c.anchorY) * (py - c.anchorY) =
          (l.foldl (findMatchStep clusters px py) acc).2) := by
  intro l
  induction l with
  | nil => intro acc h1 h2; exact ⟨h1, h2⟩
  | cons i t ih =>
    intro acc h1 h2
    rw [List.foldl_cons]
    cases hgi : clusters.get? i with
    | none =>
      have hstep : findMatchStep clusters px py acc i = acc := by
        unfold findMatchStep
        rw [hgi]
      rw [hstep]
      exact ih acc h1 h2
    | some c =>
      by_cases hle : (px - c.anchorX) * (px - c.anchorX) +
          (py - c.anchorY) * (py - c.anchorY) ≤ acc.2
      · have hstep : findMatchStep clusters px py acc i =
            (some i, (px - c.anchorX) * (px - c.anchorX) +
              (py - c.anchorY) * (py - c.anchorY)) := by
          unfold findMatchStep
          rw [hgi]
          simp [hle]
        rw [hstep]
        refine ih _ (le_trans hle h1) ?_
        intro j hj
        simp only at hj
        injection hj with hj'
        exact ⟨c, hj' ▸ hgi, rfl⟩
      · have hstep : findMatchStep clusters px py acc i = acc := by
          unfold findMatchStep
          rw [hgi]
          simp [hle]
        rw [hstep]
        exact ih acc h1 h2

theorem findMatch_spec (clusters : List StopClusterBuildState)
    (grid : List ((Int × Int) × List Nat)) (cellX cellY : Int)
    (px py : ℚ) (j : Nat)
    (hj : (findMatch clusters grid cellX cellY px py).1 = some j) :
    ∃ c, clusters.get? j = some c ∧
      (px - c.anchorX) * (px - c.anchorX) +
      (py - c.anchorY) * (py - c.anchorY) ≤
      STOP_CLUSTER_MERGE_DISTANCE_METERS *
        STOP_CLUSTER_MERGE_DISTANCE_METERS := by
  have haux : ∀ (offs : List (Int × Int)) (acc : Option Nat × ℚ),
      acc.2 ≤ STOP_CLUSTER_MERGE_DISTANCE_METERS *
        STOP_CLUSTER_MERGE_DISTANCE_METERS →
      (∀ j, acc.1 = some j → ∃ c, clusters.get? j = some c ∧
        (px - c.anchorX) * (px - c.anchorX) +
        (py - c.anchorY) * (py - c.anchorY) = acc.2) →
      (offs.foldl (fun acc off =>
        ((JsMap.get grid (getCellKey (cellX + off.1)
          (cellY + off.2))).getD []).foldl
          (findMatchStep clusters px py) acc) acc).2 ≤
        STOP_CLUSTER_MERGE_DISTANCE_METERS *
          STOP_CLUSTER_MERGE_DISTANCE_METERS ∧
      (∀ j, (offs.foldl (fun acc off =>
        ((JsMap.get grid (getCellKey (cellX + off.1)
          (cellY + off.2))).getD []).foldl
          (findMatchStep clusters px py) acc) acc).1 = some j →
        ∃ c, clusters.get? j = some c ∧
          (px - c.anchorX) * (px - c.anchorX) +
          (py - c.anchorY) * (py - c.anchorY) =
          (offs.foldl (fun acc off =>
            ((JsMap.get grid (getCellKey (cellX + off.1)
              (cellY + off.2))).getD []).foldl
              (findMatchStep clusters px py) acc) acc).2) := by
    intro offs
    induction offs with
    | nil => intro acc h1 h2; exact ⟨h1, h2⟩
    | cons off t ih =>
      intro acc h1 h2
      rw [List.foldl_cons]
      obtain ⟨h1', h2'⟩ := findMatchStep_bound clusters px py
        (STOP_CLUSTER_MERGE_DISTANCE_METERS *
          STOP_CLUSTER_MERGE_DISTANCE_METERS)
        ((JsMap.get grid (getCellKey (cellX + off.1)
          (cellY + off.2))).getD []) acc h1 h2
      exact ih _ h1' h2'
  obtain ⟨hb, hs⟩ := haux clusterOffsets
    (none, STOP_CLUSTER_MERGE_DISTANCE_METERS *
      STOP_CLUSTER_MERGE_DISTANCE_METERS)
    (le_refl _) (by intro j hj; simp at hj)
  obtain ⟨c, hc, he⟩ := hs j hj
  exact ⟨c, hc, he ▸ hb⟩

theorem clusterStep_anchor_bound (project : ℚ → ℚ → ℚ × ℚ)
    (st : List StopClusterBuildState × List ((Int × Int) × List Nat))
    (variant : StopVariant)
    (h : ∀ cluster ∈ st.1, ∀ v ∈ cluster.variants,
      ((project v.lat v.lon).1 - cluster.anchorX) *
        ((project v.lat v.lon).1 - cluster.anchorX) +
      ((project v.lat v.lon).2 - cluster.anchorY) *
        ((project v.lat v.lon).2 - cluster.anchorY) ≤
      STOP_CLUSTER_MERGE_DISTANCE_METERS *
        STOP_CLUSTER_MERGE_DISTANCE_METERS) :
    ∀ cluster ∈ (clusterStep project st variant).1,
      ∀ v ∈ cluster.variants,
        ((project v.lat v.lon).1 - cluster.anchorX) *
          ((project v.lat v.lon).1 - cluster.anchorX) +
        ((project v.lat v.lon).2 - cluster.anchorY) *
          ((project v.lat v.lon).2 - cluster.anchorY) ≤
        STOP_CLUSTER_MERGE_DISTANCE_METERS *
          STOP_CLUSTER_MERGE_DISTANCE_METERS := by
  unfold clusterStep
  cases hfm : (findMatch st.1 st.2
      ⌊(project variant.lat variant.lon).1 /
        STOP_CLUSTER_MERGE_DISTANCE_METERS⌋
      ⌊(project variant.lat variant.lon).2 /
        STOP_CLUSTER_MERGE_DISTANCE_METERS⌋
      (project variant.lat variant.lon).1
      (project variant.lat variant.lon).2).1 with
  | none =>
    simp only [hfm]
    intro cluster hcl v hv
    rcases List.mem_append.1 hcl with hold | hnew
    · exact h cluster hold v hv
    · have hceq : cluster =
          { anchorX := (project variant.lat variant.lon).1,
            anchorY := (project variant.lat variant.lon).2,
            sumLat := variant.lat, sumLon := variant.lon,
            stopCount := 1, variants := [variant] } := by
        simpa using hnew
      subst hceq
      have hveq : v = variant := by simpa using hv
      subst hveq
      have hz : ((project v.lat v.lon).1 - (project v.lat v.lon).1) *
          ((project v.lat v.lon).1 - (project v.lat v.lon).1) +
          ((project v.lat v.lon).2 - (project v.lat v.lon).2) *
          ((project v.lat v.lon).2 - (project v.lat v.lon).2) = 0 := by
        ring
      rw [hz]
      unfold STOP_CLUSTER_MERGE_DISTANCE_METERS
      norm_num
  | some matchedClusterIndex =>
    obtain ⟨c, hc, hcb⟩ := findMatch_spec st.1 st.2 _ _ _ _
      matchedClusterIndex hfm
    simp only [hfm, hc]
    intro cluster hcl v hv
    rcases List.mem_or_eq_of_mem_set hcl with hold | heq
    · exact h cluster hold v hv
    · subst heq
      rcases List.mem_append.1 hv with holdv | hnewv
      · simpa using h c (List.get?_mem hc) v holdv
      · have hveq : v = variant := by simpa using hnewv
        subst hveq
        simpa using hcb

theorem clusterStopVariants_anchor_bound (project : ℚ → ℚ → ℚ × ℚ)
    (variants : List StopVariant) :
    ∀ cluster ∈ clusterStopVariants project variants,
      ∀ v ∈ cluster.variants,
        ((project v.lat v.lon).1 - cluster.anchorX) *
          ((project v.lat v.lon).1 - cluster.anchorX) +
        ((project v.lat v.lon).2 - cluster.anchorY) *
          ((project v.lat v.lon).2 - cluster.anchorY) ≤
        STOP_CLUSTER_MERGE_DISTANCE_METERS *
          STOP_CLUSTER_MERGE_DISTANCE_METERS := by
  have haux : ∀ (l : List StopVariant)
      (st : List StopClusterBuildState × List ((Int × Int) × List Nat)),
      (∀ cluster ∈ st.1, ∀ v ∈ cluster.variants,
        ((project v.lat v.lon).1 - cluster.anchorX) *
          ((project v.lat v.lon).1 - cluster.anchorX) +
        ((project v.lat v.lon).2 - cluster.anchorY) *
          ((project v.lat v.lon).2 - cluster.anchorY) ≤
        STOP_CLUSTER_MERGE_DISTANCE_METERS *
          STOP_CLUSTER_MERGE_DISTANCE_METERS) →
      ∀ cluster ∈ (l.foldl (clusterStep project) st).1,
        ∀ v ∈ cluster.variants,
          ((project v.lat v.lon).1 - cluster.anchorX) *
            ((project v.lat v.lon).1 - cluster.anchorX) +
          ((project v.lat v.lon).2 - cluster.anchorY) *
            ((project v.lat v.lon).2 - cluster.anchorY) ≤
          STOP_CLUSTER_MERGE_DISTANCE_METERS *
            STOP_CLUSTER_MERGE_DISTANCE_METERS := by
    intro l
    induction l with
    | nil => intro st h; exact h
    | cons w t ih =>
      intro st h
      rw [List.foldl_cons]
      exact ih _ (clusterStep_anchor_bound project st w h)
  exact haux variants ([], []) (by intro cluster hcl; simp at hcl)

/-- **C4 counterexample**: the claim states any two variants whose
projected distance is within the ~24 m threshold (e.g. 10 m apart, from
different routes) end up transitively in the same cluster, with further
points tested against an accreted running centroid.  The code instead
tests each point against the cluster's *fixed anchor* (the first point's
projection): with stops projected at 0 m, 22 m and 32 m (latitude 0), the
second stop merges into the first's cluster, while the third — 10 m from
the second, a different route — is 32 m from the anchor and founds a new
cluster.  (A running centroid, at 11 m after two stops, would have
accepted it at distance 21 m ≤ 24 m.) -/
theorem cluster_merge_radius_cex :
    (projectEquator 0 (32/111320)).1 - (projectEquator 0 (22/111320)).1
      = 10 ∧
    clusterStopVariants projectEquator
      [⟨"njt:1", "s0", 0, 0⟩, ⟨"njt:2", "s1", 0, 22/111320⟩,
       ⟨"njt:3", "s2", 0, 32/111320⟩] =
      [⟨0, 0, 0, 22/111320, 2,
        [⟨"njt:1", "s0", 0, 0⟩, ⟨"njt:2", "s1", 0, 22/111320⟩]⟩,
       ⟨32, 0, 0, 32/111320, 1, [⟨"njt:3", "s2", 0, 32/111320⟩]⟩] ∧
    ¬ ∃ c ∈ clusterStopVariants projectEquator
        [⟨"njt:1", "s0", 0, 0⟩, ⟨"njt:2", "s1", 0, 22/111320⟩,
         ⟨"njt:3", "s2", 0, 32/111320⟩],
      (⟨"njt:2", "s1", 0, 22/111320⟩ : StopVariant) ∈ c.variants ∧
      (⟨"njt:3", "s2", 0, 32/111320⟩ : StopVariant) ∈ c.variants := by
  have heval : clusterStopVariants projectEquator
      [⟨"njt:1", "s0", 0, 0⟩, ⟨"njt:2", "s1", 0, 22/111320⟩,
       ⟨"njt:3", "s2", 0, 32/111320⟩] =
      [⟨0, 0, 0, 22/111320, 2,
        [⟨"njt:1", "s0", 0, 0⟩, ⟨"njt:2", "s1", 0, 22/111320⟩]⟩,
       ⟨32, 0, 0, 32/111320, 1, [⟨"njt:3", "s2", 0, 32/111320⟩]⟩] := by
    norm_num [clusterStopVariants, clusterStep, findMatch, findMatchStep,
      clusterOffsets, projectEquator, METERS_PER_DEGREE,
      STOP_CLUSTER_MERGE_DISTANCE_METERS, getCellKey, JsMap.get,
      JsMap.set, JsMap.contains, Prod.ext_iff]
  refine ⟨by norm_num [projectEquator, METERS_PER_DEGREE], heval, ?_⟩
  rw [heval]
  rintro ⟨c, hc, hv2, hv3⟩
  rcases List.mem_cons.1 hc with rfl | hc'
  · rcases List.mem_cons.1 hv3 with h3 | h3'
    · have := congrArg StopVariant.routeKey h3
      simp at this
    · rcases List.mem_cons.1 h3' with h3 | h3''
      · have := congrArg StopVariant.routeKey h3
        simp at this
      · simp at h3''
  · rcases List.mem_cons.1 hc' with rfl | hc''
    · rcases List.mem_cons.1 hv2 with h2 | h2'
      · have := congrArg StopVariant.routeKey h2
        simp at this
      · simp at h2'
    · simp at hc''

/-- **C4 (amended)**: each variant is tested against the matched cluster's
*fixed anchor* — the projection of the cluster's first stop — not an
accreted running centroid; every variant placed in a cluster lies within
the 24 m threshold (inclusive) of that anchor; two isolated stops whose
projections are 10 m apart merge into one cluster, and two stops 100 m
apart end up in different clusters.  Within-threshold proximity is not
transitive across an already-grown cluster (see the counterexample). -/
theorem cluster_merge_radius (project : ℚ → ℚ → ℚ × ℚ)
    (variants : List StopVariant) :
    (∀ cluster ∈ clusterStopVariants project variants,
      ∀ v ∈ cluster.variants,
        ((project v.lat v.lon).1 - cluster.anchorX) *
          ((project v.lat v.lon).1 - cluster.anchorX) +
        ((project v.lat v.lon).2 - cluster.anchorY) *
          ((project v.lat v.lon).2 - cluster.anchorY) ≤
        STOP_CLUSTER_MERGE_DISTANCE_METERS *
          STOP_CLUSTER_MERGE_DISTANCE_METERS) ∧
    (clusterStopVariants projectEquator
      [⟨"njt:1", "s0", 0, 0⟩, ⟨"njt:2", "s1", 0, 10/111320⟩]).length
      = 1 ∧
    (clusterStopVariants projectEquator
      [⟨"njt:1", "s0", 0, 0⟩, ⟨"njt:2", "s1", 0, 100/111320⟩]).length
      = 2 := by
  refine ⟨clusterStopVariants_anchor_bound project variants, ?_, ?_⟩
  · norm_num [clusterStopVariants, clusterStep, findMatch, findMatchStep,
      clusterOffsets, projectEquator, METERS_PER_DEGREE,
      STOP_CLUSTER_MERGE_DISTANCE_METERS, getCellKey, JsMap.get,
      JsMap.set, JsMap.contains, Prod.ext_iff]
  · norm_num [clusterStopVariants, clusterStep, findMatch, findMatchStep,
      clusterOffsets, projectEquator, METERS_PER_DEGREE,
      STOP_CLUSTER_MERGE_DISTANCE_METERS, getCellKey, JsMap.get,
      JsMap.set, JsMap.contains, Prod.ext_iff]

/-- Witness for `cluster_merge_radius` at the claim's own inputs. -/
theorem cluster_merge_radius_witness :
    (clusterStopVariants projectEquator
      [⟨"njt:1", "s0", 0, 0⟩, ⟨"njt:2", "s1", 0, 10/111320⟩]).length
      = 1 ∧
    (clusterStopVariants projectEquator
      [⟨"njt:1", "s0", 0, 0⟩, ⟨"njt:2", "s1", 0, 100/111320⟩]).length
      = 2 :=
  ⟨(cluster_merge_radius projectEquator []).2.1,
   (cluster_merge_radius projectEquator []).2.2⟩

/-! ## Per-route nearest-variant lemmas -/

namespace JsMap

variable {κ α : Type} [DecidableEq κ]

theorem mem_keys_set (m : List (κ × α)) (k : κ) (v : α) (x : κ)
    (hx : x ∈ (set m k v).map Prod.fst) :
    x ∈ m.map Prod.fst ∨ x = k := by
  rcases List.mem_map.1 hx with ⟨p, hp, rfl⟩
  rcases of_mem_set _ _ _ hp with h | h
  · exact Or.inl (List.mem_map.2 ⟨p, h, rfl⟩)
  · exact Or.inr (by rw [h])

theorem nodup_keys_set (m : List (κ × α)) (k : κ) (v : α)
    (h : (m.map Prod.fst).Nodup) :
    ((set m k v).map Prod.fst).Nodup := by
  induction m with
  | nil => simp [set]
  | cons q t ih =>
    rw [List.map_cons] at h
    obtain ⟨hq1, hq2⟩ := List.nodup_cons.1 h
    by_cases hq : q.1 = k
    · simp only [set, if_pos hq, List.map_cons]
      refine List.nodup_cons.2 ⟨?_, hq2⟩
      intro hmem
      apply hq1
      rw [hq]
      simpa using hmem
    · simp only [set, if_neg hq, List.map_cons]
      refine List.nodup_cons.2 ⟨?_, ih hq2⟩
      intro hmem
      rcases mem_keys_set t k v q.1 hmem with h' | h'
      · exact hq1 h'
      · exact hq h'

theorem get_eq_of_mem_nodup (m : List (κ × α)) (p : κ × α)
    (hnd : (m.map Prod.fst).Nodup) (hp : p ∈ m) :
    get m p.1 = some p.2 := by
  induction m with
  | nil => simp at hp
  | cons q t ih =>
    rw [List.map_cons] at hnd
    obtain ⟨hq1, hq2⟩ := List.nodup_cons.1 hnd
    rcases List.mem_cons.1 hp with rfl | hpt
    · simp [get]
    · by_cases hqp : q.1 = p.1
      · exfalso
        apply hq1
        rw [hqp]
        exact List.mem_map.2 ⟨p, hpt, rfl⟩
      · simp only [get, if_neg hqp]
        exact ih hq2 hpt

end JsMap

theorem routeVariantStep_none (dist : ℚ × ℚ → ℚ × ℚ → ℚ) (cLat cLon : ℚ)
    (m : List (String × (StopVariant × ℚ))) (w : StopVariant)
    (h : JsMap.get m w.routeKey = none) :
    routeVariantStep dist cLat cLon m w =
      JsMap.set m w.routeKey (w, dist (cLat, cLon) (w.lat, w.lon)) := by
  unfold routeVariantStep
  rw [h]

theorem routeVariantStep_some_lt (dist : ℚ × ℚ → ℚ × ℚ → ℚ) (cLat cLon : ℚ)
    (m : List (String × (StopVariant × ℚ))) (w : StopVariant)
    (ex : StopVariant × ℚ)
    (h : JsMap.get m w.routeKey = some ex)
    (hlt : dist (cLat, cLon) (w.lat, w.lon) < ex.2) :
    routeVariantStep dist cLat cLon m w =
      JsMap.set m w.routeKey (w, dist (cLat, cLon) (w.lat, w.lon)) := by
  unfold routeVariantStep
  rw [h]
  exact if_pos hlt

theorem routeVariantStep_some_ge (dist : ℚ × ℚ → ℚ × ℚ → ℚ) (cLat cLon : ℚ)
    (m : List (String × (StopVariant × ℚ))) (w : StopVariant)
    (ex : StopVariant × ℚ)
    (h : JsMap.get m w.routeKey = some ex)
    (hlt : ¬ dist (cLat, cLon) (w.lat, w.lon) < ex.2) :
    routeVariantStep dist cLat cLon m w = m := by
  unfold routeVariantStep
  rw [h]
  exact if_neg hlt

theorem routeVariantFold_entries (dist : ℚ × ℚ → ℚ × ℚ → ℚ)
    (cLat cLon : ℚ) :
    ∀ (l : List StopVariant) (m : List (String × (StopVariant × ℚ))),
      (∀ p ∈ m, p.2.1.routeKey = p.1 ∧
        p.2.2 = dist (cLat, cLon) (p.2.1.lat, p.2.1.lon)) →
      ∀ p ∈ l.foldl (routeVariantStep dist cLat cLon) m,
        (p.2.1.routeKey = p.1 ∧
          p.2.2 = dist (cLat, cLon) (p.2.1.lat, p.2.1.lon)) ∧
        (p ∈ m ∨ p.2.1 ∈ l) := by
  intro l
  induction l with
  | nil =>
    intro m hm p hp
    exact ⟨hm p hp, Or.inl hp⟩
  | cons w t ih =>
    intro m hm p hp
    rw [List.foldl_cons] at hp
    have hm' : ∀ q ∈ routeVariantStep dist cLat cLon m w,
        (q.2.1.routeKey = q.1 ∧
          q.2.2 = dist (cLat, cLon) (q.2.1.lat, q.2.1.lon)) ∧
        (q ∈ m ∨ q.2.1 = w) := by
      intro q hq
      cases hg : JsMap.get m w.routeKey with
      | none =>
        rw [routeVariantStep_none dist cLat cLon m w hg] at hq
        rcases JsMap.of_mem_set _ _ _ hq with h | h
        · exact ⟨hm q h, Or.inl h⟩
        · subst h
          exact ⟨⟨rfl, rfl⟩, Or.inr rfl⟩
      | some ex =>
        by_cases hlt : dist (cLat, cLon) (w.lat, w.lon) < ex.2
        · rw [routeVariantStep_some_lt dist cLat cLon m w ex hg hlt] at hq
          rcases JsMap.of_mem_set _ _ _ hq with h | h
          · exact ⟨hm q h, Or.inl h⟩
          · subst h
            exact ⟨⟨rfl, rfl⟩, Or.inr rfl⟩
        · rw [routeVariantStep_some_ge dist cLat cLon m w ex hg hlt] at hq
          exact ⟨hm q hq, Or.inl hq⟩
    have hres := ih (routeVariantStep dist cLat cLon m w)
      (fun q hq => (hm' q hq).1) p hp
    refine ⟨hres.1, ?_⟩
    rcases hres.2 with hpm' | hpt
    · rcases (hm' p hpm').2 with h | h
      · exact Or.inl h
      · exact Or.inr (h ▸ List.mem_cons_self _ _)
    · exact Or.inr (List.mem_cons_of_mem _ hpt)

theorem routeVariantFold_mono (dist : ℚ × ℚ → ℚ × ℚ → ℚ)
    (cLat cLon : ℚ) :
    ∀ (l : List StopVariant) (m : List (String × (StopVariant × ℚ)))
      (k : String) (e : StopVariant × ℚ),
      JsMap.get m k = some e →
      ∃ e', JsMap.get (l.foldl (routeVariantStep dist cLat cLon) m) k =
        some e' ∧ e'.2 ≤ e.2 := by
  intro l
  induction l with
  | nil =>
    intro m k e h
    exact ⟨e, h, le_refl _⟩
  | cons w t ih =>
    intro m k e h
    rw [List.foldl_cons]
    by_cases hk : k = w.routeKey
    · have hstepget : ∃ e₁, JsMap.get
          (routeVariantStep dist cLat cLon m w) k = some e₁ ∧
          e₁.2 ≤ e.2 := by
        have hg : JsMap.get m w.routeKey = some e := by rw [← hk]; exact h
        by_cases hlt : dist (cLat, cLon) (w.lat, w.lon) < e.2
        · rw [routeVariantStep_some_lt dist cLat cLon m w e hg hlt, hk]
          exact ⟨(w, dist (cLat, cLon) (w.lat, w.lon)),
            JsMap.get_set_self _ _ _, le_of_lt hlt⟩
        · rw [routeVariantStep_some_ge dist cLat cLon m w e hg hlt]
          exact ⟨e, h, le_refl _⟩
      obtain ⟨e₁, hg1, hle1⟩ := hstepget
      obtain ⟨e', hg', hle'⟩ := ih _ k e₁ hg1
      exact ⟨e', hg', le_trans hle' hle1⟩
    · have hstepget : JsMap.get (routeVariantStep dist cLat cLon m w) k =
          some e := by
        cases hg : JsMap.get m w.routeKey with
        | none =>
          rw [routeVariantStep_none dist cLat cLon m w hg,
            JsMap.get_set_ne _ _ _ _ hk]
          exact h
        | some ex =>
          by_cases hlt : dist (cLat, cLon) (w.lat, w.lon) < ex.2
          · rw [routeVariantStep_some_lt dist cLat cLon m w ex hg hlt,
              JsMap.get_set_ne _ _ _ _ hk]
            exact h
          · rw [routeVariantStep_some_ge dist cLat cLon m w ex hg hlt]
            exact h
      exact ih _ k e hstepget

theorem routeVariantFold_min (dist : ℚ × ℚ → ℚ × ℚ → ℚ)
    (cLat cLon : ℚ) :
    ∀ (l : List StopVariant) (m : List (String × (StopVariant × ℚ))),
      ∀ w ∈ l,
        ∃ e, JsMap.get (l.foldl (routeVariantStep dist cLat cLon) m)
          w.routeKey = some e ∧
          e.2 ≤ dist (cLat, cLon) (w.lat, w.lon) := by
  intro l
  induction l with
  | nil =>
    intro m w hw
    simp at hw
  | cons u t ih =>
    intro m w hw
    rw [List.foldl_cons]
    rcases List.mem_cons.1 hw with rfl | hwt
    · have hstepget : ∃ e₁, JsMap.get
          (routeVariantStep dist cLat cLon m w) w.routeKey = some e₁ ∧
          e₁.2 ≤ dist (cLat, cLon) (w.lat, w.lon) := by
        cases hg : JsMap.get m w.routeKey with
        | none =>
          rw [routeVariantStep_none dist cLat cLon m w hg]
          exact ⟨(w, dist (cLat, cLon) (w.lat, w.lon)),
            JsMap.get_set_self _ _ _, le_refl _⟩
        | some ex =>
          by_cases hlt : dist (cLat, cLon) (w.lat, w.lon) < ex.2
          · rw [routeVariantStep_some_lt dist cLat cLon m w ex hg hlt]
            exact ⟨(w, dist (cLat, cLon) (w.lat, w.lon)),
              JsMap.get_set_self _ _ _, le_refl _⟩
          · rw [routeVariantStep_some_ge dist cLat cLon m w ex hg hlt]
            exact ⟨ex, hg, not_lt.1 hlt⟩
      obtain ⟨e₁, hg1, hle1⟩ := hstepget
      obtain ⟨e', hg', hle'⟩ := routeVariantFold_mono dist cLat cLon t _
        w.routeKey e₁ hg1
      exact ⟨e', hg', le_trans hle' hle1⟩
    · exact ih _ w hwt

theorem routeVariantFold_nodup (dist : ℚ × ℚ → ℚ × ℚ → ℚ)
    (cLat cLon : ℚ) :
    ∀ (l : List StopVariant) (m : List (String × (StopVariant × ℚ))),
      (m.map Prod.fst).Nodup →
      ((l.foldl (routeVariantStep dist cLat cLon) m).map Prod.fst).Nodup
    := by
  intro l
  induction l with
  | nil => intro m h; exact h
  | cons w t ih =>
    intro m h
    rw [List.foldl_cons]
    refine ih _ ?_
    cases hg : JsMap.get m w.routeKey with
    | none =>
      rw [routeVariantStep_none dist cLat cLon m w hg]
      exact JsMap.nodup_keys_set _ _ _ h
    | some ex =>
      by_cases hlt : dist (cLat, cLon) (w.lat, w.lon) < ex.2
      · rw [routeVariantStep_some_lt dist cLat cLon m w ex hg hlt]
        exact JsMap.nodup_keys_set _ _ _ h
      · rw [routeVariantStep_some_ge dist cLat cLon m w ex hg hlt]
        exact h

/-- C5. Single route per cluster: the variant list returned by
`getClusterRouteVariants` contains at most one variant per route key
(the route keys of the output are pairwise distinct), every returned
variant comes from the cluster, the returned variant of each route key
is at minimal distance from the supplied center among all of that
route's variants in the cluster, and every route key present in the
cluster is represented in the output. -/
theorem single_route_per_cluster (dist : ℚ × ℚ → ℚ × ℚ → ℚ)
    (cmp : StopVariant → StopVariant → Bool)
    (cluster : StopClusterBuildState) (centerLat centerLon : ℚ) :
    ((getClusterRouteVariants dist cmp cluster centerLat centerLon).map
        (fun v => v.routeKey)).Nodup ∧
    (∀ v ∈ getClusterRouteVariants dist cmp cluster centerLat centerLon,
      v ∈ cluster.variants) ∧
    (∀ v ∈ getClusterRouteVariants dist cmp cluster centerLat centerLon,
      ∀ w ∈ cluster.variants, w.routeKey = v.routeKey →
        dist (centerLat, centerLon) (v.lat, v.lon) ≤
          dist (centerLat, centerLon) (w.lat, w.lon)) ∧
    (∀ w ∈ cluster.variants,
      ∃ v ∈ getClusterRouteVariants dist cmp cluster centerLat centerLon,
        v.routeKey = w.routeKey) := by
  have hout : getClusterRouteVariants dist cmp cluster centerLat centerLon =
      ((cluster.variants.foldl
          (routeVariantStep dist centerLat centerLon) []).map
        (fun entry => entry.2.1)).mergeSort cmp := rfl
  have hperm := List.mergeSort_perm
    ((cluster.variants.foldl
        (routeVariantStep dist centerLat centerLon) []).map
      (fun entry => entry.2.1)) cmp
  have hentries := routeVariantFold_entries dist centerLat centerLon
    cluster.variants [] (by intro p hp; simp at hp)
  have hnodupF := routeVariantFold_nodup dist centerLat centerLon
    cluster.variants [] (by simp)
  have hkeys : ((cluster.variants.foldl
        (routeVariantStep dist centerLat centerLon) []).map
      (fun entry => entry.2.1)).map (fun v => v.routeKey) =
      (cluster.variants.foldl
        (routeVariantStep dist centerLat centerLon) []).map Prod.fst := by
    rw [List.map_map]
    refine List.map_congr_left ?_
    intro p hp
    exact (hentries p hp).1.1
  refine ⟨?_, ?_, ?_, ?_⟩
  · rw [hout]
    rw [List.Perm.nodup_iff (List.Perm.map _ hperm)]
    rw [hkeys]
    exact hnodupF
  · intro v hv
    rw [hout, List.Perm.mem_iff hperm] at hv
    rcases List.mem_map.1 hv with ⟨p, hp, rfl⟩
    rcases (hentries p hp).2 with h | h
    · simp at h
    · exact h
  · intro v hv w hw hkey
    rw [hout, List.Perm.mem_iff hperm] at hv
    rcases List.mem_map.1 hv with ⟨p, hp, rfl⟩
    have hpkey := (hentries p hp).1.1
    have hpd := (hentries p hp).1.2
    have hget : JsMap.get (cluster.variants.foldl
        (routeVariantStep dist centerLat centerLon) []) p.1 =
        some p.2 := JsMap.get_eq_of_mem_nodup _ p hnodupF hp
    obtain ⟨e, hge, hle⟩ := routeVariantFold_min dist centerLat centerLon
      cluster.variants [] w hw
    rw [hkey, hpkey] at hge
    rw [hget] at hge
    have he : e = p.2 := by
      injection hge with h'
      exact h'.symm
    rw [he] at hle
    rw [← hpd]
    exact hle
  · intro w hw
    obtain ⟨e, hge, _⟩ := routeVariantFold_min dist centerLat centerLon
      cluster.variants [] w hw
    have hmem : (w.routeKey, e) ∈ cluster.variants.foldl
        (routeVariantStep dist centerLat centerLon) [] :=
      mem_of_get_eq _ _ _ hge
    refine ⟨e.1, ?_, ?_⟩
    · rw [hout, List.Perm.mem_iff hperm]
      exact List.mem_map.2 ⟨(w.routeKey, e), hmem, rfl⟩
    · exact (hentries (w.routeKey, e) hmem).1.1

/-- Closed instance of the single-route-per-cluster theorem, on a
cluster of three variants two of which share a route key. -/
theorem single_route_per_cluster_witness :
    ((getClusterRouteVariants
        (fun a b => (b.1 - a.1) ^ 2 + (b.2 - a.2) ^ 2)
        (fun a b => decide (a.routeKey ≤ b.routeKey))
        { anchorX := 0, anchorY := 0, sumLat := 0, sumLon := 0,
          stopCount := 3,
          variants :=
            [{ routeKey := "1", stopId := "a", lat := 0, lon := 3 },
             { routeKey := "2", stopId := "b", lat := 0, lon := 1 },
             { routeKey := "1", stopId := "c", lat := 0, lon := 2 }] }
        0 0).map (fun v => v.routeKey)).Nodup := by
  exact (single_route_per_cluster
    (fun a b => (b.1 - a.1) ^ 2 + (b.2 - a.2) ^ 2)
    (fun a b => decide (a.routeKey ≤ b.routeKey))
    { anchorX := 0, anchorY := 0, sumLat := 0, sumLon := 0,
      stopCount := 3,
      variants :=
        [{ routeKey := "1", stopId := "a", lat := 0, lon := 3 },
         { routeKey := "2", stopId := "b", lat := 0, lon := 1 },
         { routeKey := "1", stopId := "c", lat := 0, lon := 2 }] }
    0 0).1
